import Mathlib

/-!
# Harness supervision core: shallow embedding and verified properties

The Go packages `state`, `hijack`, `manager`, `mattermost`, `resources` and
`main` (namespace `cmd`) are embedded as pure Lean definitions, one namespace
per package.  Mutable
receivers become explicit state passing, calls into the operating system or
into library code outside the repository (file system, JSON codec, HTTP,
process control, the terminal-multiplexer probe) become explicit parameters,
and logging is recorded as a list of events.

Conventions.
* Go `string` is `String`; character-level code works on `String.data`.
* Go `int`/`int64` are `Int`; where the source can wrap, `wrap64` is applied.
* Go `float64` is the type `F64`, an exact model of IEEE-754 binary64 with
  round-to-nearest-even.
* A Go map is an association list looked up by first match; a nil map is
  `none`.
-/

set_option autoImplicit false

/-! ## IEEE-754 binary64 -/

/-- IEEE-754 binary64 datum: NaN, an infinity, or the finite number
`(-1)^neg * m * 2^e`. -/
inductive F64
  | nan
  | inf (neg : Bool)
  | fin (neg : Bool) (m : Nat) (e : Int)
deriving DecidableEq, Repr

namespace F64

/-- Number of binary digits of `n`, by halving with fuel. -/
def bitLenAux : Nat → Nat → Nat
  | 0, _ => 0
  | f + 1, n => if n = 0 then 0 else bitLenAux f (n / 2) + 1

def bitLen (n : Nat) : Nat := bitLenAux n n

/-- Exponent of the leading binary digit of the positive rational
`num / den`: the `l` with `2^l ≤ num / den < 2^(l+1)`. -/
def ilog2 (num den : Nat) : Int :=
  let d : Int := (bitLen num : Int) - (bitLen den : Int)
  if den * 2 ^ d.toNat ≤ num * 2 ^ (-d).toNat then d else d - 1

/-- The integer nearest to `n / d`, a tie going to the even one. -/
def nearest (n d : Nat) : Nat :=
  if d < 2 * (n % d) ∨ (2 * (n % d) = d ∧ (n / d) % 2 = 1) then n / d + 1 else n / d

/-- Nearest binary64 (ties to even) of `(-1)^neg * (num / den) * 2^e`,
with gradual underflow below `2^-1022` and overflow to infinity: the
result is `q * 2^et` for the exponent `et` that leaves 53 significant bits
(or the least exponent, -1074) and `q` the integer nearest to the scaled
value. -/
def round (neg : Bool) (num den : Nat) (e : Int) : F64 :=
  if num = 0 then .fin neg 0 0 else
  let et : Int := max (ilog2 num den + e - 52) (-1074)
  let s : Int := e - et
  let q := nearest (num * 2 ^ s.toNat) (den * 2 ^ (-s).toNat)
  if 971 < et ∨ (et = 971 ∧ q = 2 ^ 53) then .inf neg else .fin neg q et

/-- Go conversion `float64(n)` of an integer. -/
def ofInt (n : Int) : F64 := round (decide (n < 0)) n.natAbs 1 0

/-- Go `x * y` on `float64`. -/
def mul : F64 → F64 → F64
  | .nan, _ => .nan
  | _, .nan => .nan
  | .inf a, .inf b => .inf (xor a b)
  | .inf a, .fin b m _ => if m = 0 then .nan else .inf (xor a b)
  | .fin a m _, .inf b => if m = 0 then .nan else .inf (xor a b)
  | .fin a m e, .fin b n f => round (xor a b) (m * n) 1 (e + f)

/-- Go `x / y` on `float64`. -/
def div : F64 → F64 → F64
  | .nan, _ => .nan
  | _, .nan => .nan
  | .inf _, .inf _ => .nan
  | .inf a, .fin b _ _ => .inf (xor a b)
  | .fin a _ _, .inf b => .fin (xor a b) 0 0
  | .fin a m e, .fin b n f =>
    if n = 0 then (if m = 0 then .nan else .inf (xor a b))
    else round (xor a b) m n (e - f)

/-- The integer `(-1)^neg * m * 2^(e - e0)`, for `e0 ≤ e`. -/
def scaled (neg : Bool) (m : Nat) (e e0 : Int) : Int :=
  (if neg then -1 else 1) * (m : Int) * 2 ^ (e - e0).toNat

/-- Go `x - y` on `float64`. -/
def sub : F64 → F64 → F64
  | .nan, _ => .nan
  | _, .nan => .nan
  | .inf a, .inf b => if a = b then .nan else .inf a
  | .inf a, .fin _ _ _ => .inf a
  | .fin _ _ _, .inf b => .inf (!b)
  | .fin a m e, .fin b n f =>
    let e0 := min e f
    let z := scaled a m e e0 - scaled b n f e0
    if z = 0 then .fin (a && !b) 0 0 else round (decide (z < 0)) z.natAbs 1 e0

/-- Go `x < y` on `float64`. -/
def lt : F64 → F64 → Bool
  | .nan, _ => false
  | _, .nan => false
  | .inf a, .inf b => a && !b
  | .inf a, .fin _ _ _ => a
  | .fin _ _ _, .inf b => !b
  | .fin a m e, .fin b n f =>
    let e0 := min e f
    decide (scaled a m e e0 < scaled b n f e0)

/-- The exact value of a finite datum. -/
def toRat : F64 → Option ℚ
  | .fin a m e => some ((if a then -1 else 1) * (m : ℚ) * (2 : ℚ) ^ e)
  | _ => none

end F64

/-- Two's-complement wrap of an integer into the `int64` range. -/
def wrap64 (n : Int) : Int := (n + 2 ^ 63) % 2 ^ 64 - 2 ^ 63

/-! ## Logging and errors -/

/-- A Go `error` value, by origin. -/
inductive Err
  | notExist
  | io
  | encode
  | decode
  | exec
  | transport
  | status (code : Int)
  | config
  | pipe
  | start
  | wait
deriving DecidableEq, Repr

namespace log

inductive Level
  | debug
  | info
  | warn
  | error
deriving DecidableEq, Repr

/-- A logged value of a key/value pair. -/
inductive Val
  | str (s : String)
  | int (n : Int)
  | f64 (x : F64)
  | err (e : Err)
deriving DecidableEq, Repr

/-- One call of `logger.Debug/Info/Warn/Error(msg, key, value, ...)`. -/
structure Entry where
  level : Level
  msg : String
  kv : List (String × Val)
deriving DecidableEq, Repr

end log

/-! ## Package `state` -/

namespace state

/-- Source: `type WorkerStatus string`. -/
abbrev WorkerStatus := String

def WorkerRunning : WorkerStatus := "running"
def WorkerStuck : WorkerStatus := "stuck"
def WorkerHijacked : WorkerStatus := "hijacked"
def WorkerDone : WorkerStatus := "completed"
def WorkerFailed : WorkerStatus := "failed"

/-- Source: `time.Time`, kept as an instant in nanoseconds. -/
abbrev Time := Int

/-- Source: `type Worker struct`. -/
structure Worker where
  ID : String
  ContainerID : String
  Project : String
  ThreadID : String
  WorkerType : String
  Status : WorkerStatus
  SpawnedAt : Time
  LastOutput : Time
  TokenCount : Int
  SpawnCount : Int
  WorktreePath : String
  Privileges : List String
deriving DecidableEq, Repr

/-- Source: `type TrafficLight string`. -/
abbrev TrafficLight := String

def TrafficGreen : TrafficLight := "green"
def TrafficYellow : TrafficLight := "yellow"
def TrafficRed : TrafficLight := "red"

/-- Source: `type ResourceSnapshot struct`. -/
structure ResourceSnapshot where
  Timestamp : Time
  CPUPercent : F64
  RAMUsedMB : Int
  RAMTotalMB : Int
  GPUPercent : F64
  VRAMUsedMB : Int
  VRAMTotalMB : Int
  DiskUsedGB : F64
  DiskTotalGB : F64
deriving DecidableEq, Repr

structure Project where
  Alias : String
  Path : String
  Isolation : String
deriving DecidableEq, Repr

structure Privilege where
  ID : String
  Description : String
  Grant : String
  TokenEnv : String
  Mount : String
  Mode : String
deriving DecidableEq, Repr

structure Models where
  Preprocessing : String
  LocalWorker : String
  FrontierWorker : String
  Embeddings : String
deriving DecidableEq, Repr

structure LiteLLM where
  RoutingStrategy : String
  FallbackModels : List String
deriving DecidableEq, Repr

structure MattermostConfig where
  Channel : String
deriving DecidableEq, Repr

structure Supervision where
  StuckTimeoutMinutes : Int
  MaxSpawnRetries : Int
  TokenBudgetPerTask : Int
  ResourceSampleIntervalSec : Int
deriving DecidableEq, Repr

structure Alerts where
  GPUUtilizationPercent : Int
  GPUAlertDurationMinutes : Int
  RAMAvailablePercentMin : Int
  DiskFreeGBMin : Int
deriving DecidableEq, Repr

/-- Source: `type Config struct` (workspace.yaml). -/
structure Config where
  Name : String
  Projects : List Project
  Privileges : List Privilege
  Models : Models
  LiteLLM : LiteLLM
  Mattermost : MattermostConfig
  Supervision : Supervision
  Alerts : Alerts
deriving DecidableEq, Repr

/-- Go `map[string]*Worker`: association list, first match wins. Every
entry holds a non-nil pointer to a worker of its own (no two entries
share one). -/
abbrev WorkerMap := List (String × Worker)

/-- Source: `type AppState struct` (the mutex is not modelled: every
operation below is one atomic step). `workers = none` is the nil map. -/
structure AppState where
  config : Config
  workers : Option WorkerMap
  managerPID : Int
  trafficLight : TrafficLight
  resources : List ResourceSnapshot
  statePath : String
deriving DecidableEq, Repr

/-- Source: `func New(cfg *Config) *AppState`. -/
def New (cfg : Config) : AppState :=
  { config := cfg
    workers := some []
    managerPID := 0
    trafficLight := TrafficGreen
    resources := []
    statePath := "workspace-state.json" }

/-- Source: `AppState.Config`. -/
def AppState.Config (s : AppState) : Config := s.config

/-- Source: `AppState.SetManagerPID`. -/
def AppState.SetManagerPID (s : AppState) (pid : Int) : AppState :=
  { s with managerPID := pid }

/-- Source: `AppState.ManagerPID`. -/
def AppState.ManagerPID (s : AppState) : Int := s.managerPID

/-- Source: `AppState.SetTrafficLight`. -/
def AppState.SetTrafficLight (s : AppState) (tl : TrafficLight) : AppState :=
  { s with trafficLight := tl }

/-- Source: `AppState.TrafficLightStatus`. -/
def AppState.TrafficLightStatus (s : AppState) : TrafficLight := s.trafficLight

/-- Source: `AppState.AddResourceSnapshot`: append, then keep the last 1440. -/
def AppState.AddResourceSnapshot (s : AppState) (snap : ResourceSnapshot) : AppState :=
  let r := s.resources ++ [snap]
  { s with resources := if r.length > 1440 then r.drop (r.length - 1440) else r }

/-- Source: `AppState.LatestResource` (`none` is the nil pointer). -/
def AppState.LatestResource (s : AppState) : Option ResourceSnapshot :=
  if s.resources.length = 0 then none else s.resources.getLast?

/-- Go `m[id]` on a map. -/
def mapGet (m : WorkerMap) (id : String) : Option Worker :=
  match m with
  | [] => none
  | (k, w) :: rest => if k = id then some w else mapGet rest id

/-- Go `m[id] = w` on a non-nil map. -/
def mapSet (m : WorkerMap) (id : String) (w : Worker) : WorkerMap :=
  match m with
  | [] => [(id, w)]
  | (k, v) :: rest => if k = id then (id, w) :: rest else (k, v) :: mapSet rest id w

/-- Go `delete(m, id)`. -/
def mapDelete (m : WorkerMap) (id : String) : WorkerMap :=
  m.filter (fun kv => kv.1 ≠ id)

/-- Source: `AppState.AddWorker`. Assignment into the nil map panics: `none`. -/
def AppState.AddWorker (s : AppState) (w : Worker) : Option AppState :=
  match s.workers with
  | none => none
  | some m => some { s with workers := some (mapSet m w.ID w) }

/-- Source: `AppState.GetWorker` (`none` is the nil pointer). -/
def AppState.GetWorker (s : AppState) (id : String) : Option Worker :=
  match s.workers with
  | none => none
  | some m => mapGet m id

/-- Source: `AppState.ListWorkers`. -/
def AppState.ListWorkers (s : AppState) : List Worker :=
  match s.workers with
  | none => []
  | some m => m.map (fun kv => kv.2)

/-- Source: `AppState.RemoveWorker`. -/
def AppState.RemoveWorker (s : AppState) (id : String) : AppState :=
  match s.workers with
  | none => s
  | some m => { s with workers := some (mapDelete m id) }

/-- Source: `type persistedState struct`. -/
structure persistedState where
  Workers : Option WorkerMap
  ManagerPID : Int
  TrafficLight : TrafficLight
deriving DecidableEq, Repr

/-- What a path of the file system holds: nothing, something that can be
neither read nor overwritten, or a regular file. -/
inductive FileState
  | missing
  | unusable
  | file (data : String)
deriving DecidableEq, Repr

/-- The file system, by path. -/
abbrev FS := String → FileState

/-- Go `os.ReadFile`. -/
def ReadFile (fs : FS) (path : String) : Except Err String :=
  match fs path with
  | .missing => .error .notExist
  | .unusable => .error .io
  | .file d => .ok d

/-- Go `os.IsNotExist`. -/
def IsNotExist (e : Err) : Bool := e = .notExist

/-- Go `os.WriteFile`. -/
def WriteFile (fs : FS) (path : String) (data : String) : Except Err FS :=
  match fs path with
  | .unusable => .error .io
  | _ => .ok (fun p => if p = path then .file data else fs p)

/-- The two `encoding/json` calls of the package, at type `persistedState`
(library code, taken as a parameter). -/
structure JSON where
  MarshalIndent : persistedState → Except Err String
  Unmarshal : String → Except Err persistedState

/-- Source: `AppState.Save`. -/
def AppState.Save (j : JSON) (s : AppState) (fs : FS) : Except Err FS :=
  let ps : persistedState :=
    { Workers := s.workers, ManagerPID := s.managerPID, TrafficLight := s.trafficLight }
  match j.MarshalIndent ps with
  | .error e => .error e
  | .ok data => WriteFile fs s.statePath data

/-- Source: `AppState.Recover`. The store is only written on success, so
an error leaves the receiver as it was. -/
def AppState.Recover (j : JSON) (s : AppState) (fs : FS) : Except Err AppState :=
  match ReadFile fs s.statePath with
  | .error e => if IsNotExist e then .ok s else .error e
  | .ok data =>
    match j.Unmarshal data with
    | .error e => .error e
    | .ok ps =>
      .ok { s with workers := ps.Workers, managerPID := ps.ManagerPID,
                   trafficLight := ps.TrafficLight }

end state

/-! ## Package `strings` (the library functions the sources call) -/

namespace strings

/-- Go `unicode.IsSpace`. -/
def IsSpace (c : Char) : Bool :=
  c = '\t' || c = '\n' || c = '\x0b' || c = '\x0c' || c = '\r' || c = ' ' ||
  c.val = 0x85 || c.val = 0xA0 || c.val = 0x1680 ||
  (0x2000 ≤ c.val && c.val ≤ 0x200A) ||
  c.val = 0x2028 || c.val = 0x2029 || c.val = 0x202F || c.val = 0x205F || c.val = 0x3000

/-- Go `strings.TrimSpace`. -/
def TrimSpace (s : String) : String :=
  ⟨((s.data.dropWhile IsSpace).reverse.dropWhile IsSpace).reverse⟩

/-- Pieces of `cs` between the occurrences of the character `sep`;
`cur` is the piece being read, reversed. -/
def splitAux (sep : Char) : List Char → List Char → List String
  | [], cur => [⟨cur.reverse⟩]
  | c :: cs, cur =>
    if c = sep then ⟨cur.reverse⟩ :: splitAux sep cs [] else splitAux sep cs (c :: cur)

/-- Go `strings.Split(s, sep)` for a one-character separator. -/
def Split (s : String) (sep : Char) : List String := splitAux sep s.data []

/-- Go `strings.HasPrefix`. -/
def HasPrefix (s pre : String) : Bool := pre.data.isPrefixOf s.data

end strings

/-! ## Package `hijack` -/

namespace hijack

open state

/-- Outcome of running `docker exec <containerID> tmux list-clients -F ...`
(`cmd.Output()`), by container, during one pass of the monitor. -/
abbrev Docker := String → Except Err String

/-- Source: `getTmuxClientCount`. -/
def getTmuxClientCount (docker : Docker) (containerID : String) : Except Err Int :=
  match docker containerID with
  | .error _ => .error .exec
  | .ok out =>
    let lines := strings.TrimSpace out
    if lines = "" then .ok 0 else .ok ((strings.Split lines '\n').length : Int)

/-- Body of the loop of `checkAllWorkers` for one worker: the worker after
the step and what was logged. -/
def checkWorker (docker : Docker) (w : Worker) : Worker × List log.Entry :=
  if w.Status ≠ WorkerRunning ∧ w.Status ≠ WorkerHijacked then (w, [])
  else
    match getTmuxClientCount docker w.ContainerID with
    | .error _ => (w, [])
    | .ok clients =>
      if clients > 0 ∧ w.Status = WorkerRunning then
        ({ w with Status := WorkerHijacked },
         [⟨.info, "Director hijack detected", [("worker", .str w.ID), ("clients", .int clients)]⟩])
      else if clients = 0 ∧ w.Status = WorkerHijacked then
        ({ w with Status := WorkerRunning },
         [⟨.info, "Director detached from worker", [("worker", .str w.ID)]⟩])
      else (w, [])

/-- The loop of `checkAllWorkers` over the entries of the worker map: the
workers are pointers shared with the store, so the step of each entry is
written back in place. -/
def checkEntries (docker : Docker) : WorkerMap → WorkerMap × List log.Entry
  | [] => ([], [])
  | (k, w) :: rest =>
    let r := checkWorker docker w
    let rs := checkEntries docker rest
    ((k, r.1) :: rs.1, r.2 ++ rs.2)

/-- Source: `Monitor.checkAllWorkers`. -/
def checkAllWorkers (docker : Docker) (s : AppState) : AppState × List log.Entry :=
  match s.workers with
  | none => (s, [])
  | some m =>
    let r := checkEntries docker m
    ({ s with workers := some r.1 }, r.2)

/-- Source: `GetAttachCommand`. -/
def GetAttachCommand (containerID : String) : String :=
  "docker exec -it " ++ containerID ++ " tmux attach"

end hijack

/-! ## Package `mattermost` -/

namespace mattermost

/-- Source: `type Message struct`. -/
structure Message where
  ThreadID : String
  ChannelID : String
  UserID : String
  Username : String
  Text : String
  PostID : String
deriving DecidableEq, Repr

/-- A buffered Go channel `chan Message`: the queued values, oldest first,
and the capacity given to `make`. -/
structure Chan where
  buf : List Message
  cap : Nat
deriving DecidableEq, Repr

/-- Source: `type Bridge struct` (the connection handle, the logger, the
mutex and the unused store pointer are not modelled). -/
structure Bridge where
  wsURL : String
  apiURL : String
  botToken : String
  msgCh : Chan
deriving DecidableEq, Repr

/-- Source: `NewBridge`. -/
def NewBridge (wsURL apiURL botToken : String) : Except Err Bridge :=
  if wsURL = "" ∨ botToken = "" then .error .config
  else .ok { wsURL := wsURL, apiURL := apiURL, botToken := botToken, msgCh := ⟨[], 100⟩ }

/-- Source: `Bridge.Messages`. -/
def Bridge.Messages (b : Bridge) : Chan := b.msgCh

/-- A decoded JSON value held in an `interface{}`: a string, or anything else. -/
inductive Any
  | str (s : String)
  | other
deriving DecidableEq, Repr

/-- The anonymous struct `event` of `handleEvent`. -/
structure EventFrame where
  Event : String
  Data : List (String × Any)
deriving DecidableEq, Repr

/-- The anonymous struct `post` of `handleEvent`. -/
structure Post where
  ID : String
  ChannelID : String
  UserID : String
  Message : String
  RootID : String
deriving DecidableEq, Repr

/-- The two `json.Unmarshal` calls of `handleEvent` (library code, taken as
a parameter). -/
structure Decoder where
  UnmarshalEvent : String → Except Err EventFrame
  UnmarshalPost : String → Except Err Post

/-- Go `v, ok := m[key]` on `map[string]interface{}`. -/
def lookup (m : List (String × Any)) (key : String) : Option Any :=
  match m with
  | [] => none
  | (k, v) :: rest => if k = key then some v else lookup rest key

/-- Go `select { case ch <- msg: default: }`: the send succeeds exactly when
the buffer has room; the result says whether it did. -/
def Chan.trySend (ch : Chan) (msg : Message) : Chan × Bool :=
  if ch.buf.length < ch.cap then ({ ch with buf := ch.buf ++ [msg] }, true) else (ch, false)

/-- Source: `Bridge.handleEvent`. -/
def Bridge.handleEvent (d : Decoder) (b : Bridge) (raw : String) : Bridge × List log.Entry :=
  match d.UnmarshalEvent raw with
  | .error _ => (b, [])
  | .ok event =>
    if event.Event ≠ "posted" then (b, [])
    else
      match lookup event.Data "post" with
      | some (.str postJSON) =>
        match d.UnmarshalPost postJSON with
        | .error _ => (b, [])
        | .ok post =>
          let threadID := if post.RootID = "" then post.ID else post.RootID
          let msg : Message :=
            { ThreadID := threadID, ChannelID := post.ChannelID, UserID := post.UserID,
              Username := "", Text := post.Message, PostID := post.ID }
          let r := b.msgCh.trySend msg
          if r.2 then ({ b with msgCh := r.1 }, [])
          else (b, [⟨.warn, "Message channel full, dropping message", []⟩])
      | _ => (b, [])

/-- An outbound HTTP request: the JSON object of the body is kept as its
key/value pairs. -/
structure Request where
  Method : String
  URL : String
  Header : List (String × String)
  Body : List (String × String)
deriving DecidableEq, Repr

/-- The part of an HTTP response the bridge reads. -/
structure Response where
  StatusCode : Int
deriving DecidableEq, Repr

/-- The `net/http` calls of `PostMessage` (library code and network, taken
as a parameter): whether `http.NewRequest` rejects the method and URL, and
what `http.DefaultClient.Do` returns. -/
structure HTTP where
  NewRequest : String → String → Option Err
  Do : Request → Except Err Response

/-- The request `PostMessage` builds. -/
def Bridge.postRequest (b : Bridge) (channelID rootID message : String) : Request :=
  let body := [("channel_id", channelID), ("message", message)]
  let body := if rootID ≠ "" then body ++ [("root_id", rootID)] else body
  { Method := "POST"
    URL := b.apiURL ++ "/api/v4/posts"
    Header := [("Authorization", "Bearer " ++ b.botToken), ("Content-Type", "application/json")]
    Body := body }

/-- Source: `Bridge.PostMessage` (`none` is the nil error). -/
def Bridge.PostMessage (h : HTTP) (b : Bridge) (channelID rootID message : String) : Option Err :=
  let req := b.postRequest channelID rootID message
  match h.NewRequest req.Method req.URL with
  | some e => some e
  | none =>
    match h.Do req with
    | .error e => some e
    | .ok resp => if resp.StatusCode ≥ 400 then some (.status resp.StatusCode) else none

end mattermost

/-! ## Package `regexp` (leftmost-first backtracking semantics) -/

namespace regexp

/-- The pieces a pattern is a sequence of. -/
inductive Item
  | bol
  | eol
  | chr (c : Char)
  | plus (cls : Char → Bool)
  | star (cls : Char → Bool)
  | gopen (g : Nat)
  | gclose (g : Nat)

/-- Text recorded for group `g`, if any. -/
def capture (caps : List (Nat × List Char)) (g : Nat) : Option (List Char) :=
  match caps with
  | [] => none
  | (k, v) :: rest => if k = g then some v else capture rest g

/-- Tries `f k` for `k = n, n-1, ..., lo` and returns the first success:
a greedy repetition gives back one character at a time. -/
def tryDown {α : Type} (f : Nat → Option α) (lo : Nat) : Nat → Option α
  | 0 => if lo = 0 then f 0 else none
  | k + 1 =>
    if lo ≤ k + 1 then
      match f (k + 1) with
      | some r => some r
      | none => tryDown f lo k
    else none

/-- Matches the items at position `pos`, `rest` being the text from there
on; `opens` holds the text from where each open group started, `caps` the
closed groups. On success: the end position and the groups. -/
def run : List Item → Nat → List Char → List (Nat × List Char) → List (Nat × List Char) →
    Option (Nat × List (Nat × List Char))
  | [], pos, _, _, caps => some (pos, caps)
  | .bol :: is, pos, rest, opens, caps =>
    if pos = 0 then run is pos rest opens caps else none
  | .eol :: is, pos, rest, opens, caps =>
    if rest = [] then run is pos rest opens caps else none
  | .chr c :: is, pos, rest, opens, caps =>
    match rest with
    | [] => none
    | x :: xs => if x = c then run is (pos + 1) xs opens caps else none
  | .plus cls :: is, pos, rest, opens, caps =>
    tryDown (fun k => run is (pos + k) (rest.drop k) opens caps) 1 (rest.takeWhile cls).length
  | .star cls :: is, pos, rest, opens, caps =>
    tryDown (fun k => run is (pos + k) (rest.drop k) opens caps) 0 (rest.takeWhile cls).length
  | .gopen g :: is, pos, rest, opens, caps =>
    run is pos rest ((g, rest) :: opens) caps
  | .gclose g :: is, pos, rest, opens, caps =>
    match capture opens g with
    | none => run is pos rest opens caps
    | some from_ => run is pos rest opens ((g, from_.take (from_.length - rest.length)) :: caps)

/-- Leftmost match: the first start offset, from `pos` on, where `run` succeeds. -/
def search (re : List Item) : Nat → List Char → Option (Nat × Nat × List (Nat × List Char))
  | pos, [] => (run re pos [] [] []).map (fun r => (pos, r))
  | pos, c :: cs =>
    match run re pos (c :: cs) [] [] with
    | some r => some (pos, r)
    | none => search re (pos + 1) cs

/-- Go `(*Regexp).FindStringSubmatch` for a pattern with `groups` groups:
`none` is the nil slice, otherwise the match and the text of each group
(empty for a group that took no part). -/
def FindStringSubmatch (re : List Item) (groups : Nat) (s : String) : Option (List String) :=
  match search re 0 s.data with
  | none => none
  | some (start, stop, caps) =>
    some (⟨(s.data.drop start).take (stop - start)⟩ ::
      (List.range groups).map (fun g => ⟨(capture caps (g + 1)).getD []⟩))

end regexp

/-! ## Package `manager` -/

namespace manager

open state mattermost

/-- Class `[^\]]`. -/
def notRBracket (c : Char) : Bool := c ≠ ']'

/-- Class `\s` of Go regular expressions: `[\t\n\f\r ]`. -/
def perlSpace (c : Char) : Bool :=
  c = '\t' || c = '\n' || c = '\x0c' || c = '\r' || c = ' '

/-- Class `.` (no `s` flag): any character but the newline. -/
def anyCharNotNL (c : Char) : Bool := c ≠ '\n'

/-- Source: `` mmMsgPattern = regexp.MustCompile(`^\[MM:([^\]]+)\]\s*(.*)$`) ``. -/
def mmMsgPattern : List regexp.Item :=
  [.bol, .chr '[', .chr 'M', .chr 'M', .chr ':',
   .gopen 1, .plus notRBracket, .gclose 1, .chr ']',
   .star perlSpace, .gopen 2, .star anyCharNotNL, .gclose 2, .eol]

/-- Source: `type Manager struct` (logger and process handle not modelled):
the bridge pointer, `none` when nil. -/
structure Manager where
  mm : Option Bridge
deriving DecidableEq, Repr

/-- What processing one output line does, in order. -/
inductive Effect
  | post (channelID rootID message : String)
  | log (e : log.Entry)
deriving DecidableEq, Repr

/-- Source: `Manager.processOutput`. -/
def Manager.processOutput (h : HTTP) (m : Manager) (line : String) : List Effect :=
  match regexp.FindStringSubmatch mmMsgPattern 2 line with
  | some [_, threadID, message] =>
    match m.mm with
    | some b =>
      .post "" threadID message ::
        (match b.PostMessage h "" threadID message with
         | some e =>
           [.log ⟨.error, "Failed to post to Mattermost", [("thread", .str threadID), ("error", .err e)]⟩]
         | none => [])
    | none => []
  | _ =>
    (if strings.HasPrefix line "[PRIVILEGE_REQUEST]" then
       [Effect.log ⟨.info, "Privilege request from worker", [("request", .str line)]⟩]
     else []) ++
    [.log ⟨.debug, "Manager output", [("line", .str line)]⟩]

end manager

namespace manager

open state mattermost

/-- The prompt line the forwarding goroutine of `runOnce` writes to the
manager's input: `fmt.Sprintf("[From MM thread %s, user %s]: %s\n", ...)`. -/
def formatPrompt (msg : Message) : String :=
  "[From MM thread " ++ msg.ThreadID ++ ", user " ++ msg.Username ++ "]: " ++ msg.Text ++ "\n"

/-- What the operating system makes of one launch of the manager process:
a pipe or the start fails, or the process runs with process ID `pid`,
prints `lines` until its output closes, and `cmd.Wait` returns `wait`. -/
inductive Launch
  | stdinPipeFails
  | stdoutPipeFails
  | startFails
  | runs (pid : Int) (lines : List String) (wait : Option Err)
deriving DecidableEq, Repr

/-- The observable actions of the supervisor, in program order. -/
inductive Step
  | setPID (pid : Int)
  | effect (e : Effect)
  | forwarder
  | returned (err : Option Err)
  | cooldown
deriving DecidableEq, Repr

/-- Source: `Manager.runOnce`, as the sequence of its actions; the last one
is always its return. -/
def Manager.runOnce (h : HTTP) (m : Manager) : Launch → List Step
  | .stdinPipeFails => [.returned (some .pipe)]
  | .stdoutPipeFails => [.returned (some .pipe)]
  | .startFails => [.returned (some .start)]
  | .runs pid lines wait =>
    [.setPID pid, .effect (.log ⟨.info, "Manager started", [("pid", .int pid)]⟩)] ++
    (if m.mm.isSome then [.forwarder] else []) ++
    (lines.flatMap (fun line => (m.processOutput h line).map .effect)) ++
    [.setPID 0, .returned wait]

/-- The error `runOnce` returns. -/
def Launch.result : Launch → Option Err
  | .stdinPipeFails => some .pipe
  | .stdoutPipeFails => some .pipe
  | .startFails => some .start
  | .runs _ _ wait => wait

/-- One iteration of the loop of `Run` up to the second `select`:
`runOnce`, then the error log entry when it failed. -/
def Manager.cycle (h : HTTP) (m : Manager) (l : Launch) : List Step :=
  m.runOnce h l ++
  (match l.result with
   | some e => [.effect (.log ⟨.error, "Manager process exited", [("error", .err e)]⟩)]
   | none => [])

/-- Source: `Manager.Run`, for a context cancelled while the launches of
the list are used up: after every launch but the last the 3-second timer
fires and the loop restarts; after the last one the context is done. -/
def Manager.Run (h : HTTP) (m : Manager) : List Launch → List Step
  | [] => []
  | [l] => m.cycle h l
  | l :: l2 :: rest =>
    m.cycle h l ++
    [.cooldown, .effect (.log ⟨.info, "Restarting manager agent...", []⟩)] ++
    Manager.Run h m (l2 :: rest)

/-- The effect of one action on the state store. -/
def applyStep (s : AppState) : Step → AppState
  | .setPID pid => s.SetManagerPID pid
  | _ => s

/-- The state store after a sequence of actions. -/
def exec (s : AppState) (steps : List Step) : AppState := steps.foldl applyStep s

end manager

/-! ## Package `resources` -/

namespace resources

open state

/-- The `RAM` block of `checkAlerts`: `availPercent`, computed in `float64`. -/
def availPercent (snap : ResourceSnapshot) : F64 :=
  F64.mul
    (F64.div (F64.ofInt (wrap64 (snap.RAMTotalMB - snap.RAMUsedMB))) (F64.ofInt snap.RAMTotalMB))
    (F64.ofInt 100)

/-- The `RAM` block of `checkAlerts`. -/
def ramAlert (cfg : Config) (snap : ResourceSnapshot) : List log.Entry :=
  if snap.RAMTotalMB > 0 then
    if F64.lt (availPercent snap) (F64.ofInt cfg.Alerts.RAMAvailablePercentMin) then
      [⟨.warn, "Low RAM", [("available_percent", .f64 (availPercent snap))]⟩]
    else []
  else []

/-- The disk block of `checkAlerts`. -/
def diskAlert (cfg : Config) (snap : ResourceSnapshot) : List log.Entry :=
  if F64.lt (F64.ofInt 0) snap.DiskTotalGB then
    let freeGB := F64.sub snap.DiskTotalGB snap.DiskUsedGB
    if F64.lt freeGB (F64.ofInt cfg.Alerts.DiskFreeGBMin) then
      [⟨.warn, "Low disk space", [("free_gb", .f64 freeGB)]⟩]
    else []
  else []

/-- The GPU block of `checkAlerts`. -/
def gpuAlert (cfg : Config) (snap : ResourceSnapshot) : List log.Entry :=
  if F64.lt (F64.ofInt cfg.Alerts.GPUUtilizationPercent) snap.GPUPercent then
    [⟨.warn, "High GPU utilization", [("percent", .f64 snap.GPUPercent)]⟩]
  else []

/-- Source: `Monitor.checkAlerts`: what it logs. -/
def checkAlerts (s : AppState) : List log.Entry :=
  let cfg := s.Config
  match s.LatestResource with
  | none => []
  | some snap => ramAlert cfg snap ++ diskAlert cfg snap ++ gpuAlert cfg snap

end resources

namespace resources

open state

/-- The actions of the resource monitor, in program order: a sample with
the snapshot it stored, an alert evaluation with what it logged. -/
inductive Action
  | collect (snap : ResourceSnapshot)
  | checkAlerts (logs : List log.Entry)
deriving DecidableEq, Repr

/-- Source: `Monitor.collect`. The snapshot assembled from the clock and
the four metric sources (operating-system reads, taken as a parameter) is
appended to the store. -/
def collect (s : AppState) (snap : ResourceSnapshot) : AppState :=
  s.AddResourceSnapshot snap

/-- The loop of `Monitor.Run`: on every tick, `collect` then `checkAlerts`;
one snapshot of the list per tick, the context being done after the last. -/
def runTicks (s : AppState) : List ResourceSnapshot → AppState × List Action
  | [] => (s, [])
  | snap :: rest =>
    let s1 := collect s snap
    let r := runTicks s1 rest
    (r.1, .collect snap :: .checkAlerts (checkAlerts s1) :: r.2)

/-- Source: `Monitor.Run`: `collect` once on start, then the ticker loop. -/
def Run (s : AppState) (first : ResourceSnapshot) (ticks : List ResourceSnapshot) :
    AppState × List Action :=
  let s0 := collect s first
  let r := runTicks s0 ticks
  (r.1, .collect first :: r.2)

end resources

/-! ## Package `main` (cmd/harness) -/

namespace cmd

open state mattermost

/-- The components of the repository that have a `Run` loop. -/
inductive Component
  | resourceMonitor
  | hijackMonitor
  | messageBridge
  | processSupervisor (mm : Option Bridge)
  | webServer
  | dashboard
deriving DecidableEq, Repr

/-- The environment variables `main` reads. -/
structure Environ where
  MM_WS_URL : String
  MM_API_URL : String
  MM_BOT_TOKEN : String
deriving DecidableEq, Repr

/-- Source: `func main()`, as the components it constructs and starts, in
program order: `go resMon.Run(ctx)`, `go mmBridge.Run(ctx)` when
`NewBridge` succeeds, `go mgr.Run(ctx)` with the bridge pointer (nil when
it failed), `go webServer.Run(ctx)`, and `tui.Run` unless `-no-tui`. A
configuration that fails to load ends the process before anything starts. -/
def main (cfg : Except Err Config) (env : Environ) (noTUI : Bool) : List Component :=
  match cfg with
  | .error _ => []
  | .ok _ =>
    match NewBridge env.MM_WS_URL env.MM_API_URL env.MM_BOT_TOKEN with
    | .error _ =>
      [.resourceMonitor, .processSupervisor none, .webServer] ++
        (if noTUI then [] else [.dashboard])
    | .ok b =>
      [.resourceMonitor, .messageBridge, .processSupervisor (some b), .webServer] ++
        (if noTUI then [] else [.dashboard])

end cmd

/-! ## The inbound queue between bridge and supervisor -/

namespace manager

open state mattermost

/-- One iteration of the forwarding goroutine of `runOnce`
(`for msg := range m.mm.Messages()`): the oldest queued message is received
and its prompt written to the manager's input; `none` when the queue is
empty (the receive blocks). -/
def forwardOne (ch : Chan) : Option (String × Chan) :=
  match ch.buf with
  | [] => none
  | msg :: rest => some (formatPrompt msg, { ch with buf := rest })

/-- A step of the producer (the bridge handles an inbound frame) or of the
consumer (the forwarding goroutine receives one message). -/
inductive QueueOp
  | frame (raw : String)
  | forward
deriving DecidableEq, Repr

/-- An interleaving of `handleEvent` calls and forwarding steps on one
bridge: the bridge afterwards and the prompts written, in order. -/
def pump (d : Decoder) : Bridge → List QueueOp → Bridge × List String
  | b, [] => (b, [])
  | b, .frame raw :: ops => pump d (b.handleEvent d raw).1 ops
  | b, .forward :: ops =>
    match forwardOne b.msgCh with
    | none => pump d b ops
    | some (prompt, ch) =>
      let r := pump d { b with msgCh := ch } ops
      (r.1, prompt :: r.2)

end manager

/-! ## Specification-level definitions and example data -/

namespace state

/-- A call on the worker registry. -/
inductive RegistryOp
  | add (w : Worker)
  | remove (id : String)
deriving DecidableEq, Repr

/-- The store after one registry call (`none`: the call panicked). -/
def AppState.applyOp (s : AppState) : RegistryOp → Option AppState
  | .add w => s.AddWorker w
  | .remove id => some (s.RemoveWorker id)

/-- The store after a sequence of registry calls. -/
def AppState.applyOps (s : AppState) : List RegistryOp → Option AppState
  | [] => some s
  | op :: ops =>
    match s.applyOp op with
    | none => none
    | some s2 => s2.applyOps ops

/-- The specification's reading of `GetWorker(id)` after a sequence of
calls: starting from `acc`, the record most recently added under `id`,
absent once `id` was removed since. -/
def lastAdded (id : String) (acc : Option Worker) : List RegistryOp → Option Worker
  | [] => acc
  | .add w :: ops => lastAdded id (if w.ID = id then some w else acc) ops
  | .remove i :: ops => lastAdded id (if i = id then none else acc) ops

/-- The registry invariant: keys are pairwise distinct and every record is
stored under its own ID. -/
def WellKeyed (m : WorkerMap) : Prop :=
  (m.map (fun kv => kv.1)).Nodup ∧ ∀ kv ∈ m, kv.2.ID = kv.1

end state

namespace resources

open state

/-- Whether every `collect` of a sequence of actions is directly followed
by a `checkAlerts`. -/
def everyCollectChecked : List Action → Bool
  | [] => true
  | .collect _ :: .checkAlerts _ :: rest => everyCollectChecked rest
  | .collect _ :: _ => false
  | .checkAlerts _ :: rest => everyCollectChecked rest

/-- Whether the low-disk warning is among the logged entries. -/
def lowDiskWarned (logs : List log.Entry) : Bool :=
  logs.any (fun e => decide (e.level = .warn ∧ e.msg = "Low disk space"))

end resources


namespace hijack

open state

/-- The transition rule in the specification's words: `running` with an
attached-client count above 0 becomes `hijacked`, `hijacked` with a count
of 0 becomes `running`, every other combination (another status, a failed
probe) is a no-op. -/
def transitionRule (status : WorkerStatus) (probe : Except Err Int) : WorkerStatus :=
  match probe with
  | .error _ => status
  | .ok clients =>
    if status = WorkerRunning ∧ clients > 0 then WorkerHijacked
    else if status = WorkerHijacked ∧ clients = 0 then WorkerRunning
    else status

end hijack

namespace mattermost

/-- The message `handleEvent` builds from a decoded post. -/
def messageOf (post : Post) : Message :=
  { ThreadID := if post.RootID = "" then post.ID else post.RootID
    ChannelID := post.ChannelID, UserID := post.UserID, Username := ""
    Text := post.Message, PostID := post.ID }

end mattermost

namespace manager

/-- The outbound `PostMessage` calls among the effects of a line, each as
(channel, thread root, text). -/
def postCalls : List Effect → List (String × String × String)
  | [] => []
  | .post c r m :: es => (c, r, m) :: postCalls es
  | .log _ :: es => postCalls es

end manager

namespace resources

open state

/-- Whether the low-RAM warning is among the logged entries. -/
def lowRAMWarned (logs : List log.Entry) : Bool :=
  logs.any (fun e => decide (e.level = .warn ∧ e.msg = "Low RAM"))

/-- The available percentage in the specification's words, as an exact
number: `(total - used) / total * 100`. -/
def exactAvailPercent (snap : ResourceSnapshot) : ℚ :=
  ((snap.RAMTotalMB - snap.RAMUsedMB : ℤ) : ℚ) / (snap.RAMTotalMB : ℚ) * 100

end resources

namespace examples

open state mattermost

def config : Config :=
  { Name := "ws", Projects := [], Privileges := [], Models := ⟨"", "", "", ""⟩,
    LiteLLM := ⟨"", []⟩, Mattermost := ⟨"town-square"⟩,
    Supervision := ⟨5, 3, 100000, 60⟩, Alerts := ⟨95, 5, 10, 5⟩ }

def worker : Worker :=
  { ID := "w1", ContainerID := "c1", Project := "p", ThreadID := "t1", WorkerType := "local",
    Status := WorkerRunning, SpawnedAt := 0, LastOutput := 0, TokenCount := 0, SpawnCount := 1,
    WorktreePath := "/wt/w1", Privileges := [] }

/-- A store with one running worker, a manager process and a yellow light. -/
def store : AppState :=
  { New config with
    workers := some [("w1", worker)], managerPID := 4242, trafficLight := TrafficYellow }

/-- A codec for the example store: the file holds a fixed text, which
decodes to the projection of `store`. -/
def json : JSON :=
  { MarshalIndent := fun _ => .ok "saved-state"
    Unmarshal := fun d =>
      if d = "saved-state" then .ok ⟨store.workers, store.managerPID, store.trafficLight⟩
      else .error .decode }

/-- A file system with no file. -/
def emptyFS : FS := fun _ => .missing

/-- One client attached to every container. -/
def dockerOneClient : hijack.Docker := fun _ => .ok "/dev/pts/0\n"

/-- No client attached to any container. -/
def dockerNoClient : hijack.Docker := fun _ => .ok ""

/-- Every request is answered with status 200. -/
def httpOK : HTTP := ⟨fun _ _ => none, fun _ => .ok ⟨200⟩⟩

/-- Every request is answered with status 304. -/
def httpNotModified : HTTP := ⟨fun _ _ => none, fun _ => .ok ⟨304⟩⟩

/-- A snapshot with the given RAM reading and every other metric at zero. -/
def snapshot (total used : Int) : ResourceSnapshot :=
  { Timestamp := 0, CPUPercent := .fin false 0 0, RAMUsedMB := used, RAMTotalMB := total,
    GPUPercent := .fin false 0 0, VRAMUsedMB := 0, VRAMTotalMB := 0,
    DiskUsedGB := .fin false 0 0, DiskTotalGB := .fin false 0 0 }

/-- A fresh store whose configured RAM minimum is `ramMin` percent, after
one sample. -/
def alertStore (ramMin : Int) (snap : ResourceSnapshot) : AppState :=
  (New { config with Alerts := ⟨95, 5, ramMin, 5⟩ }).AddResourceSnapshot snap

def bridge : Bridge := ⟨"wss://mm.example", "https://mm.example", "token", ⟨[], 100⟩⟩

def post : Post := ⟨"p1", "ch1", "u1", "hello", ""⟩

/-- A decoder that reads every frame as a `posted` event carrying `post`. -/
def decoder : Decoder :=
  ⟨fun _ => .ok ⟨"posted", [("post", .str "post-json")]⟩, fun _ => .ok post⟩

/-- A state file without a `workers` key. -/
def fsNoWorkers : FS :=
  fun p => if p = "workspace-state.json" then .file "manager_pid: 7" else .missing

/-- A codec that reads the file of `fsNoWorkers` as `encoding/json` reads
an object without a `workers` key (or with `"workers": null`): the map
stays nil. -/
def jsonNoWorkers : JSON :=
  { MarshalIndent := fun _ => .error .encode
    Unmarshal := fun d =>
      if d = "manager_pid: 7" then .ok ⟨none, 7, ""⟩ else .error .decode }

/-- A second worker. -/
def worker2 : Worker := { worker with ID := "w2", ContainerID := "c2" }

/-- A snapshot with 100 GB of disk, 98 of them used. -/
def diskSnapshot : ResourceSnapshot :=
  { snapshot 1000 500 with DiskUsedGB := F64.ofInt 98, DiskTotalGB := F64.ofInt 100 }

def environ : cmd.Environ := ⟨"wss://mm.example", "https://mm.example", "token"⟩

end examples

/-! ## Theorems: resource history (package `state`) -/

namespace state

theorem trim_snoc {α : Type} (c : Nat) (ys : List α) (x : α) :
    (if (ys.drop (ys.length - c) ++ [x]).length > c
      then (ys.drop (ys.length - c) ++ [x]).drop
        ((ys.drop (ys.length - c) ++ [x]).length - c)
      else ys.drop (ys.length - c) ++ [x])
    = (ys ++ [x]).drop ((ys ++ [x]).length - c) := by
  have hle : ys.length - c ≤ ys.length := Nat.sub_le _ _
  rw [← List.drop_append_of_le_length hle]
  split
  · rename_i h
    rw [List.drop_drop]
    simp only [List.length_drop, List.length_append, List.length_singleton] at h ⊢
    have e : ys.length - c + (ys.length + 1 - (ys.length - c) - c) = ys.length + 1 - c := by
      omega
    rw [e]
  · rename_i h
    simp only [List.length_drop, List.length_append, List.length_singleton] at h ⊢
    have e : ys.length - c = ys.length + 1 - c := by omega
    rw [e]

/-- Invariant of the history under a run of `AddResourceSnapshot`: a store
holding the last 1440 of `ys` holds the last 1440 of `ys ++ xs` afterwards. -/
theorem foldl_resources (s : AppState) (xs : List ResourceSnapshot) :
    ∀ ys : List ResourceSnapshot, s.resources = ys.drop (ys.length - 1440) →
      (xs.foldl AppState.AddResourceSnapshot s).resources
        = (ys ++ xs).drop ((ys ++ xs).length - 1440) := by
  induction xs generalizing s with
  | nil => intro ys h; simpa using h
  | cons x xs ih =>
    intro ys h
    have := ih (s.AddResourceSnapshot x) (ys ++ [x]) (by
      simp only [AppState.AddResourceSnapshot, h]
      exact trim_snoc 1440 ys x)
    simpa [List.append_assoc] using this

/-- C1. Passing the snapshots `xs` one by one to `AddResourceSnapshot` on a
freshly constructed store leaves as history exactly the last
`min xs.length 1440` of them, in insertion order (the oldest are the ones
dropped); in particular the history never exceeds 1440 entries. -/
theorem AddResourceSnapshot_history (cfg : Config) (xs : List ResourceSnapshot) :
    (xs.foldl AppState.AddResourceSnapshot (New cfg)).resources
        = xs.drop (xs.length - min xs.length 1440) ∧
    (xs.foldl AppState.AddResourceSnapshot (New cfg)).resources.length
        = min xs.length 1440 ∧
    (xs.foldl AppState.AddResourceSnapshot (New cfg)).resources.length ≤ 1440 := by
  have h := foldl_resources (New cfg) xs [] (by simp [New])
  simp only [List.nil_append] at h
  have e : xs.length - min xs.length 1440 = xs.length - 1440 := by omega
  rw [e]
  refine ⟨h, ?_, ?_⟩ <;> rw [h, List.length_drop] <;> omega

/-! ## Theorems: persistence (package `state`) -/

/-- C2. For every store state, a successful `Save` followed by `Recover` on
a freshly constructed store gives that store the saved worker map, manager
PID and traffic-light value. The store is one built by `New` (its path is
the fixed one) and the JSON codec decodes what it encoded for this state. -/
theorem Save_Recover_roundtrip (j : JSON) (cfg : Config) (s : AppState) (fs fs2 : FS)
    (hpath : s.statePath = (New cfg).statePath)
    (hsave : s.Save j fs = .ok fs2)
    (hcodec : ∀ d, j.MarshalIndent ⟨s.workers, s.managerPID, s.trafficLight⟩ = .ok d →
      j.Unmarshal d = .ok ⟨s.workers, s.managerPID, s.trafficLight⟩) :
    ∃ s2, (New cfg).Recover j fs2 = .ok s2 ∧
      s2.workers = s.workers ∧ s2.managerPID = s.managerPID ∧
      s2.trafficLight = s.trafficLight := by
  unfold AppState.Save at hsave
  cases hm : j.MarshalIndent ⟨s.workers, s.managerPID, s.trafficLight⟩ with
  | error e => simp [hm] at hsave
  | ok d =>
    simp only [hm] at hsave
    have hu := hcodec d hm
    unfold WriteFile at hsave
    have hfs : fs2 = fun p => if p = s.statePath then FileState.file d else fs p := by
      cases hp : fs s.statePath <;> simp [hp] at hsave <;> exact hsave.symm
    refine ⟨{ New cfg with workers := s.workers, managerPID := s.managerPID,
                           trafficLight := s.trafficLight }, ?_, rfl, rfl, rfl⟩
    unfold AppState.Recover ReadFile
    simp [hfs, ← hpath, hu]

theorem Save_Recover_roundtrip_witness :
    ∃ fs2, examples.store.Save examples.json examples.emptyFS = .ok fs2 ∧
      ∃ s2, (New examples.config).Recover examples.json fs2 = .ok s2 ∧
        s2.workers = some [("w1", examples.worker)] ∧ s2.managerPID = 4242 ∧
        s2.trafficLight = TrafficYellow :=
  ⟨_, rfl, Save_Recover_roundtrip examples.json examples.config examples.store
    examples.emptyFS _ rfl rfl
    (by intro d _; simp [examples.json] at *; subst_vars; rfl)⟩

/-- C3. When the persisted state file does not exist, `Recover` on a
freshly constructed store returns no error and leaves the store at its
initial value: no workers, manager PID 0, traffic light green. -/
theorem Recover_missing_file (j : JSON) (cfg : Config) (fs : FS)
    (h : fs (New cfg).statePath = .missing) :
    (New cfg).Recover j fs = .ok (New cfg) ∧
      (New cfg).ListWorkers = [] ∧ (New cfg).managerPID = 0 ∧
      (New cfg).trafficLight = TrafficGreen := by
  refine ⟨?_, rfl, rfl, rfl⟩
  simp [AppState.Recover, ReadFile, h, IsNotExist]

theorem Recover_missing_file_witness :
    (New examples.config).Recover examples.json examples.emptyFS = .ok (New examples.config) ∧
      (New examples.config).ListWorkers = [] ∧ (New examples.config).managerPID = 0 ∧
      (New examples.config).trafficLight = TrafficGreen :=
  Recover_missing_file examples.json examples.config examples.emptyFS rfl

end state

/-! ## Theorems: hijack monitor -/

namespace hijack

open state

theorem running_ne_hijacked : WorkerRunning ≠ WorkerHijacked := by decide

/-- The loop body refines the transition rule and touches no other field. -/
theorem checkWorker_rule (docker : Docker) (w : Worker) :
    (checkWorker docker w).1 =
      { w with Status := transitionRule w.Status (getTmuxClientCount docker w.ContainerID) } := by
  rcases w with ⟨id, cid, pr, th, wt, st, sa, lo, tc, sc, wp, pv⟩
  unfold checkWorker transitionRule
  have hne := running_ne_hijacked
  by_cases h1 : st = WorkerRunning
  · cases hp : getTmuxClientCount docker cid with
    | error e => simp [h1, hne, hp]
    | ok n =>
      by_cases hn : n > 0
      · simp [h1, hne, hn, hp]
      · simp [h1, hne, hn, hp]
  · by_cases h2 : st = WorkerHijacked
    · cases hp : getTmuxClientCount docker cid with
      | error e => simp [h2, hne.symm, hp]
      | ok n =>
        by_cases hn : n = 0
        · simp [h2, hne.symm, hn, hp]
        · simp [h2, hne.symm, hn, hp]
    · cases hp : getTmuxClientCount docker cid <;> simp [h1, h2, hp]

theorem mapGet_checkEntries (docker : Docker) (m : WorkerMap) (id : String) :
    mapGet (checkEntries docker m).1 id = (mapGet m id).map (fun w => (checkWorker docker w).1) := by
  induction m with
  | nil => rfl
  | cons kv rest ih =>
    obtain ⟨k, w⟩ := kv
    simp only [checkEntries, mapGet]
    by_cases h : k = id
    · simp [h]
    · simp [h, ih]

theorem GetWorker_checkAllWorkers (docker : Docker) (s : AppState) (id : String) :
    (checkAllWorkers docker s).1.GetWorker id =
      (s.GetWorker id).map (fun w =>
        { w with Status := transitionRule w.Status (getTmuxClientCount docker w.ContainerID) }) := by
  unfold checkAllWorkers AppState.GetWorker
  cases hm : s.workers with
  | none => simp [hm]
  | some m =>
    simp only [hm, mapGet_checkEntries]
    congr 1
    funext w
    exact checkWorker_rule docker w

/-- C4. One pass of `checkAllWorkers` changes the status of every worker of
the store by the transition rule applied to its probe outcome and changes
nothing else of it: `running` with a successful probe of more than 0
clients becomes `hijacked`, `hijacked` with a successful probe of 0 clients
becomes `running`, and in every other case the status stays. Consequently
a running worker probed with at least 1 client in one pass and with 0
clients in the next is running again. -/
theorem checkAllWorkers_transition (docker docker2 : Docker) (s : AppState) (id : String)
    (w : Worker) (h : s.GetWorker id = some w) :
    (checkAllWorkers docker s).1.GetWorker id = some
        { w with Status := transitionRule w.Status (getTmuxClientCount docker w.ContainerID) } ∧
    (∀ n : Int, n > 0 → transitionRule WorkerRunning (.ok n) = WorkerHijacked) ∧
    transitionRule WorkerHijacked (.ok 0) = WorkerRunning ∧
    (∀ (st : WorkerStatus) (p : Except Err Int),
      (¬ (st = WorkerRunning ∧ ∃ n : Int, n > 0 ∧ p = .ok n)) →
      (¬ (st = WorkerHijacked ∧ p = .ok 0)) → transitionRule st p = st) ∧
    (∀ n : Int, w.Status = WorkerRunning → n ≥ 1 →
      getTmuxClientCount docker w.ContainerID = .ok n →
      getTmuxClientCount docker2 w.ContainerID = .ok 0 →
      (checkAllWorkers docker s).1.GetWorker id = some { w with Status := WorkerHijacked } ∧
      (checkAllWorkers docker2 (checkAllWorkers docker s).1).1.GetWorker id = some w) := by
  have hne := running_ne_hijacked
  refine ⟨?_, ?_, ?_, ?_, ?_⟩
  · rw [GetWorker_checkAllWorkers, h]; rfl
  · intro n hn; simp [transitionRule, hn]
  · simp [transitionRule, hne.symm]
  · intro st p h1 h2
    unfold transitionRule
    cases p with
    | error e => rfl
    | ok n =>
      by_cases a : st = WorkerRunning ∧ n > 0
      · exact absurd ⟨a.1, n, a.2, rfl⟩ h1
      · by_cases b : st = WorkerHijacked ∧ n = 0
        · exact absurd ⟨b.1, by rw [b.2]⟩ h2
        · simp [a, b]
  · intro n hs hn h1 h2
    have hn2 : n > 0 := by omega
    constructor
    · rw [GetWorker_checkAllWorkers, h]
      simp [h1, hs, transitionRule, hn2]
    · rw [GetWorker_checkAllWorkers, GetWorker_checkAllWorkers, h]
      simp only [Option.map_some']
      simp [h1, h2, hs, transitionRule, hn2, hne.symm]
      cases w
      simp_all

theorem checkAllWorkers_transition_witness :
    examples.store.GetWorker "w1" = some examples.worker ∧
    (checkAllWorkers examples.dockerOneClient examples.store).1.GetWorker "w1"
      = some { examples.worker with Status := WorkerHijacked } ∧
    (checkAllWorkers examples.dockerNoClient
      (checkAllWorkers examples.dockerOneClient examples.store).1).1.GetWorker "w1"
      = some examples.worker :=
  ⟨rfl, (checkAllWorkers_transition examples.dockerOneClient examples.dockerNoClient
    examples.store "w1" examples.worker rfl).2.2.2.2 1 rfl (by decide) rfl rfl⟩

end hijack

/-! ## Theorems: the pattern matcher (package `regexp`) -/

namespace manager

open state mattermost regexp

theorem tryDown_top {α : Type} (f : Nat → Option α) (lo n : Nat) (r : α)
    (hf : f n = some r) (hlo : lo ≤ n) : tryDown f lo n = some r := by
  cases n with
  | zero =>
    have : lo = 0 := by omega
    simp [tryDown, this, hf]
  | succ k => simp [tryDown, hlo, hf]

theorem tryDown_some {α : Type} (f : Nat → Option α) (lo : Nat) :
    ∀ (n : Nat) (r : α), tryDown f lo n = some r → ∃ k, lo ≤ k ∧ k ≤ n ∧ f k = some r := by
  intro n
  induction n with
  | zero =>
    intro r h
    unfold tryDown at h
    split at h
    · rename_i h0
      exact ⟨0, by omega, le_refl _, h⟩
    · cases h
  | succ k ih =>
    intro r h
    unfold tryDown at h
    split at h
    · rename_i hlo
      cases hf : f (k + 1) with
      | some r' =>
        simp only [hf] at h
        exact ⟨k + 1, hlo, le_refl _, by rw [hf, h]⟩
      | none =>
        simp only [hf] at h
        obtain ⟨j, h1, h2, h3⟩ := ih r h
        exact ⟨j, h1, by omega, h3⟩
    · cases h

theorem takeWhile_append_stop (p : Char → Bool) (t rest : List Char)
    (ht : ∀ c ∈ t, p c = true) (hr : ∀ c, rest.head? = some c → p c = false) :
    (t ++ rest).takeWhile p = t := by
  induction t with
  | nil =>
    cases rest with
    | nil => rfl
    | cons c cs => simp [List.takeWhile_cons, hr c rfl]
  | cons a t ih =>
    have ha : p a = true := ht a (List.mem_cons_self _ _)
    simp only [List.cons_append, List.takeWhile_cons, ha, if_true]
    rw [ih (fun c hc => ht c (List.mem_cons_of_mem _ hc))]

theorem takeWhile_all (p : Char → Bool) (t : List Char) (ht : ∀ c ∈ t, p c = true) :
    t.takeWhile p = t := by
  have := takeWhile_append_stop p t [] ht (by simp)
  simpa using this

theorem drop_takeWhile_length (p : Char → Bool) (l : List Char) :
    l.drop (l.takeWhile p).length = l.dropWhile p := by
  induction l with
  | nil => rfl
  | cons a l ih =>
    cases h : p a <;> simp [List.takeWhile_cons, List.dropWhile_cons, h, ih]

theorem search_bol (is : List Item) (cs : List Char) :
    ∀ pos, 0 < pos → search (.bol :: is) pos cs = none := by
  induction cs with
  | nil =>
    intro pos h
    have : pos ≠ 0 := by omega
    simp [search, run, this]
  | cons c cs ih =>
    intro pos h
    have : pos ≠ 0 := by omega
    simp [search, run, this, ih (pos + 1) (by omega)]

theorem run_tail2 (pos : Nat) (r : List Char) (opens caps : List (Nat × List Char))
    (hr : ∀ c ∈ r, c ≠ '\n') :
    ∃ stop, run [.gopen 2, .star anyCharNotNL, .gclose 2, .eol] pos r opens caps
      = some (stop, (2, r) :: caps) := by
  have htw : (r.takeWhile anyCharNotNL).length = r.length := by
    rw [takeWhile_all]
    intro c hc
    simp [anyCharNotNL, hr c hc]
  refine ⟨pos + r.length, ?_⟩
  simp only [run, htw]
  apply tryDown_top _ _ _ _ _ (Nat.zero_le _)
  simp [run, capture]

theorem run_tail1 (pos : Nat) (rest : List Char) (opens caps : List (Nat × List Char))
    (hr : ∀ c ∈ rest.dropWhile perlSpace, c ≠ '\n') :
    ∃ stop, run [.star perlSpace, .gopen 2, .star anyCharNotNL, .gclose 2, .eol] pos rest opens caps
      = some (stop, (2, rest.dropWhile perlSpace) :: caps) := by
  obtain ⟨stop, hs⟩ := run_tail2 (pos + (rest.takeWhile perlSpace).length)
    (rest.dropWhile perlSpace) opens caps hr
  refine ⟨stop, ?_⟩
  rw [run]
  apply tryDown_top _ _ _ _ _ (Nat.zero_le _)
  simp only [drop_takeWhile_length]
  exact hs

theorem run_mmMsgPattern (t rest : List Char) (ht : t ≠ []) (hb : ∀ c ∈ t, c ≠ ']')
    (hr : ∀ c ∈ rest.dropWhile perlSpace, c ≠ '\n') :
    ∃ stop, run mmMsgPattern 0 ('[' :: 'M' :: 'M' :: ':' :: (t ++ ']' :: rest)) [] []
      = some (stop, [(2, rest.dropWhile perlSpace), (1, t)]) := by
  obtain ⟨stop, hs⟩ := run_tail1 (0 + 1 + 1 + 1 + 1 + t.length + 1) rest
    [(1, t ++ ']' :: rest)] [(1, t)] hr
  refine ⟨stop, ?_⟩
  have htw : ((t ++ ']' :: rest).takeWhile notRBracket).length = t.length := by
    rw [takeWhile_append_stop]
    · intro c hc; simp [notRBracket, hb c hc]
    · intro c hc
      simp only [List.head?_cons, Option.some.injEq] at hc
      subst hc
      simp [notRBracket]
  have hlen : 1 ≤ t.length := by
    cases t with
    | nil => exact absurd rfl ht
    | cons a t => simp
  simp only [mmMsgPattern, run, if_true, htw]
  apply tryDown_top _ _ _ _ _ hlen
  simp only [List.drop_left, run, capture, if_true]
  have : (t ++ ']' :: rest).length - (']' :: rest).length = t.length := by simp
  rw [this, List.take_left]
  exact hs

theorem take_of_le_takeWhile (p : Char → Bool) :
    ∀ (l : List Char) (k : Nat), k ≤ (l.takeWhile p).length → ∀ c ∈ l.take k, p c = true := by
  intro l
  induction l with
  | nil => intro k _ c hc; simp at hc
  | cons a l ih =>
    intro k hk c hc
    cases k with
    | zero => simp at hc
    | succ k =>
      cases ha : p a with
      | false => simp [List.takeWhile_cons, ha] at hk
      | true =>
        simp only [List.takeWhile_cons, ha, if_true, List.length_cons] at hk
        simp only [List.take_succ_cons, List.mem_cons] at hc
        rcases hc with hc | hc
        · rw [hc]; exact ha
        · exact ih k (by omega) c hc

theorem run_chr_some (a : Char) (is : List Item) (pos : Nat) (cs : List Char)
    (opens caps : List (Nat × List Char)) (res : Nat × List (Nat × List Char))
    (h : run (.chr a :: is) pos cs opens caps = some res) :
    ∃ rest, cs = a :: rest ∧ run is (pos + 1) rest opens caps = some res := by
  cases cs with
  | nil => simp [run] at h
  | cons x xs =>
    rw [run] at h
    by_cases hx : x = a
    · subst hx
      rw [if_pos rfl] at h
      exact ⟨xs, rfl, h⟩
    · rw [if_neg hx] at h
      cases h

theorem run_star_some (cls : Char → Bool) (is : List Item) (pos : Nat) (cs : List Char)
    (opens caps : List (Nat × List Char)) (res : Nat × List (Nat × List Char))
    (h : run (.star cls :: is) pos cs opens caps = some res) :
    ∃ k, k ≤ (cs.takeWhile cls).length ∧ run is (pos + k) (cs.drop k) opens caps = some res := by
  rw [run] at h
  obtain ⟨k, _, hk, hf⟩ := tryDown_some _ _ _ _ h
  exact ⟨k, hk, hf⟩

theorem run_plus_some (cls : Char → Bool) (is : List Item) (pos : Nat) (cs : List Char)
    (opens caps : List (Nat × List Char)) (res : Nat × List (Nat × List Char))
    (h : run (.plus cls :: is) pos cs opens caps = some res) :
    ∃ k, 1 ≤ k ∧ k ≤ (cs.takeWhile cls).length ∧
      run is (pos + k) (cs.drop k) opens caps = some res := by
  rw [run] at h
  exact tryDown_some _ _ _ _ h

theorem run_gopen_eq (g : Nat) (is : List Item) (pos : Nat) (cs : List Char)
    (opens caps : List (Nat × List Char)) :
    run (.gopen g :: is) pos cs opens caps = run is pos cs ((g, cs) :: opens) caps := by
  rw [run]

theorem run_gclose_some (g : Nat) (is : List Item) (pos : Nat) (cs : List Char)
    (opens caps : List (Nat × List Char)) (res : Nat × List (Nat × List Char))
    (h : run (.gclose g :: is) pos cs opens caps = some res) :
    ∃ caps2, run is pos cs opens caps2 = some res := by
  rw [run] at h
  cases hc : capture opens g with
  | none => rw [hc] at h; exact ⟨_, h⟩
  | some v => rw [hc] at h; exact ⟨_, h⟩

theorem run_eol_some (is : List Item) (pos : Nat) (cs : List Char)
    (opens caps : List (Nat × List Char)) (res : Nat × List (Nat × List Char))
    (h : run (.eol :: is) pos cs opens caps = some res) : cs = [] := by
  rw [run] at h
  by_contra hne
  rw [if_neg hne] at h
  cases h

theorem run_tail2_sound (pos : Nat) (r : List Char) (opens caps : List (Nat × List Char))
    (res : Nat × List (Nat × List Char))
    (h : run [.gopen 2, .star anyCharNotNL, .gclose 2, .eol] pos r opens caps = some res) :
    ∀ c ∈ r, c ≠ '\n' := by
  rw [run_gopen_eq] at h
  obtain ⟨k, hk, hf⟩ := run_star_some _ _ _ _ _ _ _ h
  obtain ⟨caps2, hg⟩ := run_gclose_some _ _ _ _ _ _ _ hf
  have he := run_eol_some _ _ _ _ _ _ hg
  have hlen : r.length ≤ k := List.drop_eq_nil_iff.mp he
  have hall := take_of_le_takeWhile anyCharNotNL r k hk
  rw [List.take_of_length_le hlen] at hall
  intro c hc
  have := hall c hc
  simpa [anyCharNotNL] using this

theorem run_tail1_sound (pos : Nat) (rest : List Char) (opens caps : List (Nat × List Char))
    (res : Nat × List (Nat × List Char))
    (h : run [.star perlSpace, .gopen 2, .star anyCharNotNL, .gclose 2, .eol] pos rest opens caps
      = some res) :
    ∀ c ∈ rest.dropWhile perlSpace, c ≠ '\n' := by
  obtain ⟨k, hk, hf⟩ := run_star_some _ _ _ _ _ _ _ h
  have h2 := run_tail2_sound _ _ _ _ _ hf
  intro c hc
  apply h2
  rw [← drop_takeWhile_length] at hc
  have hsplit : rest.drop (rest.takeWhile perlSpace).length
      = (rest.drop k).drop ((rest.takeWhile perlSpace).length - k) := by
    rw [List.drop_drop]
    congr 1
    omega
  rw [hsplit] at hc
  exact List.mem_of_mem_drop hc

theorem run_mmMsgPattern_sound (cs : List Char) (res : Nat × List (Nat × List Char))
    (h : run mmMsgPattern 0 cs [] [] = some res) :
    ∃ t rest, cs = '[' :: 'M' :: 'M' :: ':' :: (t ++ ']' :: rest) ∧ t ≠ [] ∧
      (∀ c ∈ t, c ≠ ']') ∧ ∀ c ∈ rest.dropWhile perlSpace, c ≠ '\n' := by
  unfold mmMsgPattern at h
  rw [run, if_pos rfl] at h
  obtain ⟨r1, e1, h1⟩ := run_chr_some _ _ _ _ _ _ _ h
  obtain ⟨r2, e2, h2⟩ := run_chr_some _ _ _ _ _ _ _ h1
  obtain ⟨r3, e3, h3⟩ := run_chr_some _ _ _ _ _ _ _ h2
  obtain ⟨rest1, e4, h4⟩ := run_chr_some _ _ _ _ _ _ _ h3
  subst e4 e3 e2 e1
  rw [run_gopen_eq] at h4
  obtain ⟨k, hk1, hk2, h5⟩ := run_plus_some _ _ _ _ _ _ _ h4
  obtain ⟨caps2, h6⟩ := run_gclose_some _ _ _ _ _ _ _ h5
  obtain ⟨rest2, hd, h7⟩ := run_chr_some _ _ _ _ _ _ _ h6
  refine ⟨rest1.take k, rest2, ?_, ?_, ?_, run_tail1_sound _ _ _ _ _ h7⟩
  · rw [← hd, List.take_append_drop]
  · intro hnil
    have hlt : k < rest1.length := by
      by_contra hge
      have : rest1.drop k = [] := List.drop_eq_nil_iff.mpr (by omega)
      rw [this] at hd
      cases hd
    have : (rest1.take k).length = 0 := by rw [hnil]; rfl
    rw [List.length_take] at this
    omega
  · intro c hc
    have := take_of_le_takeWhile notRBracket rest1 k hk2 c hc
    simpa [notRBracket] using this

theorem search_zero_bol (is : List Item) (cs : List Char) :
    search (.bol :: is) 0 cs = (run (.bol :: is) 0 cs [] []).map (fun r => (0, r)) := by
  cases cs with
  | nil => rfl
  | cons c cs =>
    rw [search]
    cases h : run (.bol :: is) 0 (c :: cs) [] [] with
    | some r => rfl
    | none => simp [search_bol is cs 1 (by omega)]

theorem find_mmMsgPattern (line : String) :
    FindStringSubmatch mmMsgPattern 2 line =
      (run mmMsgPattern 0 line.data [] []).map (fun r =>
        [⟨line.data.take r.1⟩, ⟨(capture r.2 1).getD []⟩, ⟨(capture r.2 2).getD []⟩]) := by
  unfold FindStringSubmatch
  have := search_zero_bol (mmMsgPattern.tail) line.data
  have e : Item.bol :: mmMsgPattern.tail = mmMsgPattern := rfl
  rw [e] at this
  rw [this]
  cases h : run mmMsgPattern 0 line.data [] [] with
  | none => rfl
  | some r =>
    obtain ⟨stop, caps⟩ := r
    simp [List.range_succ]

theorem processOutput_match (h : HTTP) (b : Bridge) (line : String) (t rest : List Char)
    (hl : line.data = '[' :: 'M' :: 'M' :: ':' :: (t ++ ']' :: rest))
    (ht : t ≠ []) (hb : ∀ c ∈ t, c ≠ ']') (hr : ∀ c ∈ rest.dropWhile perlSpace, c ≠ '\n') :
    postCalls (Manager.processOutput h ⟨some b⟩ line) = [("", ⟨t⟩, ⟨rest.dropWhile perlSpace⟩)] := by
  obtain ⟨stop, hs⟩ := run_mmMsgPattern t rest ht hb hr
  unfold Manager.processOutput
  rw [find_mmMsgPattern, hl, hs]
  simp only [Option.map_some', capture]
  simp only [if_true, Option.getD_some]
  cases hpm : b.PostMessage h "" ⟨t⟩ ⟨rest.dropWhile perlSpace⟩ <;> simp [postCalls, hpm]

theorem processOutput_post_sound (h : HTTP) (m : Manager) (line : String)
    (hp : postCalls (m.processOutput h line) ≠ []) :
    ∃ t rest, line.data = '[' :: 'M' :: 'M' :: ':' :: (t ++ ']' :: rest) ∧ t ≠ [] ∧
      (∀ c ∈ t, c ≠ ']') ∧ ∀ c ∈ rest.dropWhile perlSpace, c ≠ '\n' := by
  cases hrun : run mmMsgPattern 0 line.data [] [] with
  | some r => exact run_mmMsgPattern_sound _ _ hrun
  | none =>
    exfalso
    apply hp
    unfold Manager.processOutput
    rw [find_mmMsgPattern, hrun]
    simp only [Option.map_none']
    split <;> simp [postCalls]

theorem processOutput_nomatch (h : HTTP) (m : Manager) (line : String)
    (hn : FindStringSubmatch mmMsgPattern 2 line = none) :
    postCalls (m.processOutput h line) = [] := by
  unfold Manager.processOutput
  rw [hn]
  simp only
  split <;> simp [postCalls]

/-! ## Theorems: output classification (package `manager`) -/

/-- C5 (as stated) fails on a message text that begins with a blank: the
line `[MM:abc123]  hello` is posted with text `hello`, not ` hello`. -/
theorem processOutput_leading_space :
    ¬ (∀ (h : HTTP) (b : Bridge) (t m : String), t ≠ "" → (∀ c ∈ t.data, c ≠ ']') →
        (∀ c ∈ m.data, c ≠ '\n') →
        postCalls (Manager.processOutput h ⟨some b⟩ ("[MM:" ++ t ++ "] " ++ m)) = [("", t, m)]) := by
  intro hall
  have h1 := hall examples.httpOK examples.bridge "abc123" " hello"
    (by decide) (by decide) (by decide)
  revert h1
  decide

/-- C5 (amended). With a bridge configured, for every thread ID `t`
(non-empty, no `]`) and message text `m` (no newline), the line
`"[MM:" + t + "] " + m` triggers exactly one `PostMessage` call, with
thread root `t` and as text `m` without its leading whitespace
(`[\t\n\f\r ]`), which is `m` itself when `m` does not begin with
whitespace. A line triggers a post only if it is `"[MM:" + t + "]" + rest`
with `t` non-empty and free of `]` and `rest`, after its leading
whitespace, free of newlines; a line the pattern does not match, such as
`plain log line`, triggers none. -/
theorem processOutput_chat_relay (h : HTTP) (b : Bridge) (t m : String)
    (ht : t ≠ "") (hb : ∀ c ∈ t.data, c ≠ ']') (hm : ∀ c ∈ m.data, c ≠ '\n') :
    postCalls (Manager.processOutput h ⟨some b⟩ ("[MM:" ++ t ++ "] " ++ m))
      = [("", t, ⟨m.data.dropWhile perlSpace⟩)] ∧
    ((∀ c, m.data.head? = some c → perlSpace c = false) →
      postCalls (Manager.processOutput h ⟨some b⟩ ("[MM:" ++ t ++ "] " ++ m)) = [("", t, m)]) ∧
    (∀ (mgr : Manager) (line : String), postCalls (mgr.processOutput h line) ≠ [] →
      ∃ t2 rest, line.data = '[' :: 'M' :: 'M' :: ':' :: (t2 ++ ']' :: rest) ∧ t2 ≠ [] ∧
        (∀ c ∈ t2, c ≠ ']') ∧ ∀ c ∈ rest.dropWhile perlSpace, c ≠ '\n') ∧
    (∀ (mgr : Manager) (line : String), FindStringSubmatch mmMsgPattern 2 line = none →
      postCalls (mgr.processOutput h line) = []) ∧
    (∀ mgr : Manager, postCalls (mgr.processOutput h "plain log line") = []) := by
  have hl : ("[MM:" ++ t ++ "] " ++ m).data
      = '[' :: 'M' :: 'M' :: ':' :: (t.data ++ ']' :: (' ' :: m.data)) := by
    simp only [String.data_append]
    show ['[', 'M', 'M', ':'] ++ t.data ++ [']', ' '] ++ m.data = _
    simp
  have htd : t.data ≠ [] := by
    intro hnil
    apply ht
    cases t
    simp_all
  have hdw : (' ' :: m.data).dropWhile perlSpace = m.data.dropWhile perlSpace := by
    rw [List.dropWhile_cons]
    simp [perlSpace]
  have hr : ∀ c ∈ (' ' :: m.data).dropWhile perlSpace, c ≠ '\n' := by
    intro c hc
    rw [hdw] at hc
    exact hm c ((List.dropWhile_suffix _).subset hc)
  have key := processOutput_match h b _ t.data (' ' :: m.data) hl htd hb hr
  rw [hdw] at key
  refine ⟨key, ?_, fun mgr line hp => processOutput_post_sound h mgr line hp,
    fun mgr line hn => processOutput_nomatch h mgr line hn, ?_⟩
  · intro hhead
    rw [key]
    have : m.data.dropWhile perlSpace = m.data := by
      cases hd : m.data with
      | nil => rfl
      | cons a l =>
        rw [List.dropWhile_cons, hhead a (by rw [hd]; rfl)]
        simp
    rw [this]
  · intro mgr
    exact processOutput_nomatch h mgr _ (by decide)

theorem processOutput_chat_relay_witness :
    postCalls (Manager.processOutput examples.httpOK ⟨some examples.bridge⟩
      ("[MM:" ++ "abc123" ++ "] " ++ "hello world")) = [("", "abc123", "hello world")] :=
  (processOutput_chat_relay examples.httpOK examples.bridge "abc123" "hello world"
    (by decide) (by decide) (by decide)).2.1 (by decide)

/-- C9. A line beginning with `[PRIVILEGE_REQUEST]` is logged twice by
`processOutput`: as the privilege-request event and, falling through, as a
diagnostic entry as well. -/
theorem processOutput_privilege_request (h : HTTP) (m : Manager) (rest : String) :
    m.processOutput h ("[PRIVILEGE_REQUEST]" ++ rest) =
      [.log ⟨.info, "Privilege request from worker",
          [("request", .str ("[PRIVILEGE_REQUEST]" ++ rest))]⟩,
       .log ⟨.debug, "Manager output", [("line", .str ("[PRIVILEGE_REQUEST]" ++ rest))]⟩] := by
  have hd : ("[PRIVILEGE_REQUEST]" ++ rest).data
      = '[' :: 'P' :: ("RIVILEGE_REQUEST]".data ++ rest.data) := by
    rw [String.data_append]; rfl
  have hfind : FindStringSubmatch mmMsgPattern 2 ("[PRIVILEGE_REQUEST]" ++ rest) = none := by
    unfold FindStringSubmatch
    rw [hd]
    have hs := search_bol mmMsgPattern.tail ('P' :: ("RIVILEGE_REQUEST]".data ++ rest.data)) 1
      (by omega)
    have e : Item.bol :: mmMsgPattern.tail = mmMsgPattern := rfl
    rw [e] at hs
    have hr : run mmMsgPattern 0 ('[' :: 'P' :: ("RIVILEGE_REQUEST]".data ++ rest.data)) [] []
        = none := by
      simp [mmMsgPattern, run]
    rw [search, hr]
    simp only [hs]
  have hpre : strings.HasPrefix ("[PRIVILEGE_REQUEST]" ++ rest) "[PRIVILEGE_REQUEST]" = true := by
    unfold strings.HasPrefix
    rw [String.data_append]
    simp
  unfold Manager.processOutput
  rw [hfind, hpre]
  rfl

end manager

/-! ## Theorems: message bridge (package `mattermost`) -/

namespace mattermost

/-- C6. On a bridge built by `NewBridge` (queue capacity 100), handling a
valid `posted` event when the queue holds 100 messages leaves the queue as
it was, the new message being dropped with a warning, and when it holds
fewer than 100 appends the new message at the tail. `handleEvent` is a
total function: it returns in either case. -/
theorem handleEvent_queue (d : Decoder) (wsURL apiURL botToken raw postJSON : String)
    (b : Bridge) (data : List (String × Any)) (post : Post) (q : List Message)
    (hb : NewBridge wsURL apiURL botToken = .ok b)
    (hev : d.UnmarshalEvent raw = .ok ⟨"posted", data⟩)
    (hdata : lookup data "post" = some (.str postJSON))
    (hpost : d.UnmarshalPost postJSON = .ok post) :
    b.msgCh.cap = 100 ∧
    (q.length = 100 →
      Bridge.handleEvent d { b with msgCh := { b.msgCh with buf := q } } raw
        = ({ b with msgCh := { b.msgCh with buf := q } },
           [⟨.warn, "Message channel full, dropping message", []⟩])) ∧
    (q.length < 100 →
      Bridge.handleEvent d { b with msgCh := { b.msgCh with buf := q } } raw
        = ({ b with msgCh := { b.msgCh with buf := q ++ [messageOf post] } }, [])) := by
  have hcap : b.msgCh.cap = 100 := by
    unfold NewBridge at hb
    split at hb
    · cases hb
    · cases hb; rfl
  refine ⟨hcap, ?_, ?_⟩
  · intro hq
    simp [Bridge.handleEvent, hev, hdata, hpost, Chan.trySend, hcap, hq]
  · intro hq
    simp [Bridge.handleEvent, hev, hdata, hpost, Chan.trySend, hcap, hq, messageOf]

theorem handleEvent_queue_witness :
    Bridge.handleEvent examples.decoder examples.bridge "frame"
      = ({ examples.bridge with msgCh := ⟨[messageOf examples.post], 100⟩ }, []) :=
  (handleEvent_queue examples.decoder "wss://mm.example" "https://mm.example" "token" "frame"
    "post-json" examples.bridge [("post", .str "post-json")] examples.post [] rfl rfl rfl
    rfl).2.2 (by decide)

/-- C10 (as stated) fails on a status outside 200-299 and below 400: a
response with status 304 makes `PostMessage` return no error. -/
theorem PostMessage_not_modified :
    ¬ (∀ (h : HTTP) (b : Bridge) (channelID rootID message : String) (resp : Response),
        h.Do (b.postRequest channelID rootID message) = .ok resp →
        ¬ (200 ≤ resp.StatusCode ∧ resp.StatusCode ≤ 299) →
        b.PostMessage h channelID rootID message ≠ none) := by
  intro hall
  exact hall examples.httpNotModified examples.bridge "" "abc123" "hello" ⟨304⟩ rfl
    (by decide) rfl

/-- C10 (amended). When the request is built and a response arrives,
`PostMessage` returns an error for every status code of 400 or more and no
error for every status code below 400, in particular for 200 to 299. -/
theorem PostMessage_status (h : HTTP) (b : Bridge) (channelID rootID message : String)
    (resp : Response)
    (hreq : h.NewRequest "POST" (b.apiURL ++ "/api/v4/posts") = none)
    (hdo : h.Do (b.postRequest channelID rootID message) = .ok resp) :
    (resp.StatusCode ≥ 400 →
      b.PostMessage h channelID rootID message = some (.status resp.StatusCode)) ∧
    (resp.StatusCode < 400 → b.PostMessage h channelID rootID message = none) ∧
    (200 ≤ resp.StatusCode ∧ resp.StatusCode ≤ 299 →
      b.PostMessage h channelID rootID message = none) := by
  have hm : (b.postRequest channelID rootID message).Method = "POST" := by
    unfold Bridge.postRequest; rfl
  have hu : (b.postRequest channelID rootID message).URL = b.apiURL ++ "/api/v4/posts" := by
    unfold Bridge.postRequest; rfl
  refine ⟨?_, ?_, ?_⟩
  · intro hs
    simp [Bridge.PostMessage, hm, hu, hreq, hdo, hs]
  · intro hs
    have : ¬ (resp.StatusCode ≥ 400) := by omega
    simp [Bridge.PostMessage, hm, hu, hreq, hdo, this]
  · intro hs
    have : ¬ (resp.StatusCode ≥ 400) := by omega
    simp [Bridge.PostMessage, hm, hu, hreq, hdo, this]

theorem PostMessage_status_witness :
    examples.bridge.PostMessage examples.httpOK "" "abc123" "hello" = none :=
  (PostMessage_status examples.httpOK examples.bridge "" "abc123" "hello" ⟨200⟩ rfl rfl).2.2
    (by decide)

end mattermost

/-! ## Theorems: process supervisor (package `manager`) -/

namespace manager

open state mattermost

theorem exec_append (s : AppState) (a b : List Step) : exec s (a ++ b) = exec (exec s a) b := by
  simp [exec, List.foldl_append]

theorem exec_effects (s : AppState) (es : List Effect) : exec s (es.map .effect) = s := by
  induction es with
  | nil => rfl
  | cons e es ih => simpa [exec, applyStep] using ih

theorem exec_flatMap_effects (h : HTTP) (m : Manager) (s : AppState) (lines : List String) :
    exec s (lines.flatMap (fun line => (m.processOutput h line).map .effect)) = s := by
  induction lines with
  | nil => rfl
  | cons l ls ih =>
    rw [List.flatMap_cons, exec_append, exec_effects, ih]

theorem exec_forwarder (s : AppState) (b : Bool) :
    exec s (if b then [Step.forwarder] else []) = s := by
  cases b <;> rfl

theorem runOnce_pid (h : HTTP) (m : Manager) (s : AppState) (pid : Int) (lines : List String)
    (wait : Option Err) :
    (exec s (m.runOnce h (.runs pid lines wait))).managerPID = 0 := by
  simp only [Manager.runOnce, exec_append, exec_forwarder, exec_flatMap_effects]
  rfl

theorem cycle_pid (h : HTTP) (m : Manager) (s : AppState) (pid : Int) (lines : List String)
    (wait : Option Err) :
    (exec s (m.cycle h (.runs pid lines wait))).managerPID = 0 := by
  unfold Manager.cycle
  rw [exec_append]
  cases wait with
  | none => exact runOnce_pid h m s pid lines none
  | some e => exact runOnce_pid h m s pid lines (some e)

theorem Run_cons_cons (h : HTTP) (m : Manager) (l l2 : Launch) (rest : List Launch) :
    Manager.Run h m (l :: l2 :: rest) =
      m.cycle h l ++
      [.cooldown, .effect (.log ⟨.info, "Restarting manager agent...", []⟩)] ++
      Manager.Run h m (l2 :: rest) := rfl

theorem Run_split (h : HTTP) (m : Manager) (pre : List Launch) (l next : Launch)
    (rest : List Launch) :
    Manager.Run h m (pre ++ l :: next :: rest) =
      Manager.Run h m (pre ++ [l]) ++
      [.cooldown, .effect (.log ⟨.info, "Restarting manager agent...", []⟩)] ++
      Manager.Run h m (next :: rest) := by
  induction pre with
  | nil => rfl
  | cons p ps ih =>
    cases ps with
    | nil =>
      simp only [List.cons_append, List.nil_append] at ih ⊢
      rw [Run_cons_cons, ih, Run_cons_cons]
      simp only [List.append_assoc]
    | cons p2 ps2 =>
      simp only [List.cons_append] at ih ⊢
      rw [Run_cons_cons, ih, Run_cons_cons]
      simp only [List.append_assoc]

theorem Run_last_pid (h : HTTP) (m : Manager) (s : AppState) (pre : List Launch) (pid : Int)
    (lines : List String) (wait : Option Err) :
    (exec s (Manager.Run h m (pre ++ [.runs pid lines wait]))).managerPID = 0 := by
  induction pre generalizing s with
  | nil => exact cycle_pid h m s pid lines wait
  | cons p ps ih =>
    cases ps with
    | nil =>
      simp only [List.cons_append, List.nil_append] at ih ⊢
      rw [Run_cons_cons, exec_append]
      exact ih _
    | cons p2 ps2 =>
      simp only [List.cons_append] at ih ⊢
      rw [Run_cons_cons, exec_append]
      exact ih _

theorem exec_no_setPID (s : AppState) (steps : List Step)
    (hs : ∀ st ∈ steps, ∀ p, st ≠ Step.setPID p) : exec s steps = s := by
  induction steps generalizing s with
  | nil => rfl
  | cons st rest ih =>
    have h1 : applyStep s st = s := by
      cases st with
      | setPID p => exact absurd rfl (hs _ (List.mem_cons_self _ _) p)
      | _ => rfl
    show exec (applyStep s st) rest = s
    rw [h1]
    exact ih s (fun x hx => hs x (List.mem_cons_of_mem _ hx))

/-- C7. In every supervision cycle in which the manager process ran and its
output closed, the process ID in the state store is 0 when `runOnce`
returns (its last two actions are the reset and the return), so it is 0
when the 3-second cooldown that follows in `Run` starts; and when the next
launch starts a process, the recorded process ID is that process's ID from
the start until its own output closes. -/
theorem supervisor_pid (h : HTTP) (m : Manager) (s : AppState) (pre : List Launch)
    (pid : Int) (lines : List String) (wait : Option Err) (next : Launch)
    (rest : List Launch) :
    (∀ s0 : AppState, (exec s0 (m.runOnce h (.runs pid lines wait))).managerPID = 0) ∧
    (∃ front : List Step, m.runOnce h (.runs pid lines wait)
        = front ++ [.setPID 0, .returned wait]) ∧
    Manager.Run h m (pre ++ .runs pid lines wait :: next :: rest) =
      Manager.Run h m (pre ++ [.runs pid lines wait]) ++
      [.cooldown, .effect (.log ⟨.info, "Restarting manager agent...", []⟩)] ++
      Manager.Run h m (next :: rest) ∧
    (exec s (Manager.Run h m (pre ++ [.runs pid lines wait]))).managerPID = 0 ∧
    (∀ (pid2 : Int) (lines2 : List String) (wait2 : Option Err),
      next = .runs pid2 lines2 wait2 →
      ∃ steps : List Step,
        m.runOnce h next = .setPID pid2 :: (steps ++ [.setPID 0, .returned wait2]) ∧
        ∀ k, k ≤ steps.length →
          (exec s (Manager.Run h m (pre ++ [.runs pid lines wait]) ++
            [.cooldown, .effect (.log ⟨.info, "Restarting manager agent...", []⟩)] ++
            .setPID pid2 :: steps.take k)).managerPID = pid2) := by
  refine ⟨fun s0 => runOnce_pid h m s0 pid lines wait,
    ⟨[.setPID pid, .effect (.log ⟨.info, "Manager started", [("pid", .int pid)]⟩)] ++
      (if m.mm.isSome then [.forwarder] else []) ++
      (lines.flatMap (fun line => (m.processOutput h line).map .effect)), rfl⟩,
    Run_split h m pre _ next rest, Run_last_pid h m s pre pid lines wait, ?_⟩
  · intro pid2 lines2 wait2 hn
    subst hn
    refine ⟨[.effect (.log ⟨.info, "Manager started", [("pid", .int pid2)]⟩)] ++
      (if m.mm.isSome then [.forwarder] else []) ++
      (lines2.flatMap (fun line => (m.processOutput h line).map .effect)), ?_, ?_⟩
    · simp [Manager.runOnce]
    · intro k _
      rw [exec_append, exec_append]
      show (exec (applyStep _ (.setPID pid2)) _).managerPID = pid2
      rw [exec_no_setPID]
      · rfl
      · intro st hst p
        have hst' := List.mem_of_mem_take hst
        simp only [List.mem_append, List.mem_singleton, List.mem_flatMap, List.mem_map] at hst'
        rcases hst' with (h1 | h1) | ⟨l, _, e, _, h1⟩
        · subst h1; simp
        · split at h1
          · simp at h1; subst h1; simp
          · simp at h1
        · subst h1; simp

end manager

/-! ## Theorems: binary64 rounding -/

namespace F64

set_option maxRecDepth 100000 in
/-- The model agrees with the binary64 encodings of 1/10 and 1/3 and with
round-half-to-even on integers above `2^53`. -/
theorem round_samples :
    div (ofInt 1) (ofInt 10) = .fin false 7205759403792794 (-56) ∧
    div (ofInt 1) (ofInt 3) = .fin false 6004799503160661 (-54) ∧
    ofInt (2 ^ 53 + 1) = .fin false 4503599627370496 1 ∧
    ofInt (2 ^ 53 + 3) = .fin false 4503599627370498 1 ∧
    mul (div (ofInt 29) (ofInt 100)) (ofInt 100) = .fin false 8162774324609023 (-48) := by
  refine ⟨?_, ?_, ?_, ?_, ?_⟩ <;> rfl

theorem bitLenAux_spec : ∀ (f n : Nat), n ≤ f → n ≠ 0 →
    n < 2 ^ bitLenAux f n ∧ 2 ^ bitLenAux f n ≤ 2 * n := by
  intro f
  induction f with
  | zero => intro n h1 h2; omega
  | succ f ih =>
    intro n h1 h2
    rw [bitLenAux, if_neg h2]
    by_cases h0 : n / 2 = 0
    · have hn : n = 1 := by omega
      subst hn
      have : bitLenAux f (1 / 2) = 0 := by
        cases f <;> simp [bitLenAux]
      rw [this]
      simp
    · obtain ⟨a, b⟩ := ih (n / 2) (by omega) h0
      rw [pow_succ]
      constructor <;> omega

theorem bitLen_spec (n : Nat) (h : n ≠ 0) : n < 2 ^ bitLen n ∧ 2 ^ bitLen n ≤ 2 * n :=
  bitLenAux_spec n n (le_refl _) h

theorem zpow_toNat (d : Int) :
    (2 : ℚ) ^ d = (2 : ℚ) ^ d.toNat / (2 : ℚ) ^ (-d).toNat := by
  rcases le_or_lt 0 d with h | h
  · have h1 : ((-d).toNat) = 0 := by omega
    rw [h1, pow_zero, div_one, ← zpow_natCast, Int.toNat_of_nonneg h]
  · have h1 : d.toNat = 0 := by omega
    have h2 : (((-d).toNat : ℕ) : ℤ) = -d := Int.toNat_of_nonneg (by omega)
    rw [h1, pow_zero, ← zpow_natCast, h2, zpow_neg, one_div, inv_inv]

theorem ilog2_spec (num den : Nat) (hn : num ≠ 0) (hd : den ≠ 0) :
    (2 : ℚ) ^ ilog2 num den ≤ (num : ℚ) / den ∧
    (num : ℚ) / den < (2 : ℚ) ^ (ilog2 num den + 1) := by
  obtain ⟨a1, a2⟩ := bitLen_spec num hn
  obtain ⟨b1, b2⟩ := bitLen_spec den hd
  have hdq : (0 : ℚ) < den := by exact_mod_cast Nat.pos_of_ne_zero hd
  have hnq : (0 : ℚ) < num := by exact_mod_cast Nat.pos_of_ne_zero hn
  have a1q : (num : ℚ) < 2 ^ (bitLen num : ℤ) := by
    rw [zpow_natCast]; exact_mod_cast a1
  have a2q : (2 : ℚ) ^ (bitLen num : ℤ) ≤ 2 * num := by
    rw [zpow_natCast]; exact_mod_cast a2
  have b1q : (den : ℚ) < 2 ^ (bitLen den : ℤ) := by
    rw [zpow_natCast]; exact_mod_cast b1
  have b2q : (2 : ℚ) ^ (bitLen den : ℤ) ≤ 2 * den := by
    rw [zpow_natCast]; exact_mod_cast b2
  have two_pos : ∀ z : ℤ, (0 : ℚ) < 2 ^ z := fun z => zpow_pos (by norm_num) z
  set d : ℤ := (bitLen num : ℤ) - (bitLen den : ℤ) with hd_def
  have hsplit : (2 : ℚ) ^ (bitLen num : ℤ) = 2 ^ d * 2 ^ (bitLen den : ℤ) := by
    rw [← zpow_add₀ (by norm_num : (2 : ℚ) ≠ 0)]
    congr 1
    omega
  have htest : (den * 2 ^ d.toNat ≤ num * 2 ^ (-d).toNat) ↔ (2 : ℚ) ^ d ≤ (num : ℚ) / den := by
    rw [zpow_toNat d, div_le_div_iff₀ (by positivity) hdq]
    constructor
    · intro h
      have : ((den * 2 ^ d.toNat : ℕ) : ℚ) ≤ ((num * 2 ^ (-d).toNat : ℕ) : ℚ) := by
        exact_mod_cast h
      push_cast at this
      linarith
    · intro h
      have : ((den * 2 ^ d.toNat : ℕ) : ℚ) ≤ ((num * 2 ^ (-d).toNat : ℕ) : ℚ) := by
        push_cast
        linarith
      exact_mod_cast this
  -- bounds valid in both cases
  have hup : (num : ℚ) / den < 2 ^ (d + 1) := by
    rw [div_lt_iff₀ hdq, zpow_add₀ (by norm_num : (2 : ℚ) ≠ 0), zpow_one]
    have := two_pos d
    nlinarith
  have hlow : (2 : ℚ) ^ (d - 1) ≤ (num : ℚ) / den := by
    rw [le_div_iff₀ hdq, zpow_sub₀ (by norm_num : (2 : ℚ) ≠ 0), zpow_one]
    have := two_pos d
    have h3 : (2 : ℚ) ^ d * den ≤ 2 ^ d * 2 ^ (bitLen den : ℤ) :=
      mul_le_mul_of_nonneg_left b1q.le this.le
    rw [div_mul_eq_mul_div, div_le_iff₀ (by norm_num)]
    linarith
  unfold ilog2
  simp only
  split
  · rename_i h
    exact ⟨htest.mp h, hup⟩
  · rename_i h
    have h2 : ¬ ((2 : ℚ) ^ d ≤ (num : ℚ) / den) := fun hc => h (htest.mpr hc)
    refine ⟨hlow, ?_⟩
    have e : d - 1 + 1 = d := by omega
    rw [e]
    exact lt_of_not_le h2


theorem two_zpow_pos (z : ℤ) : (0 : ℚ) < 2 ^ z := zpow_pos (by norm_num) z

theorem two_zpow_lt {a b : ℤ} (h : (2 : ℚ) ^ a < 2 ^ b) : a < b :=
  (zpow_lt_zpow_iff_right₀ (by norm_num : (1 : ℚ) < 2)).mp h

/-- Nearest-integer property of the quotient and remainder rounding. -/
theorem nearest_div (n d : Nat) (hd : d ≠ 0) :
    |((nearest n d : ℕ) : ℚ) - (n : ℚ) / d| ≤ 1 / 2 := by
  have hdq : (0 : ℚ) < d := by exact_mod_cast Nat.pos_of_ne_zero hd
  have hdecomp : (n : ℚ) = d * (n / d : ℕ) + (n % d : ℕ) := by
    exact_mod_cast (Nat.div_add_mod n d).symm
  have hrlt : ((n % d : ℕ) : ℚ) < d := by
    exact_mod_cast Nat.mod_lt n (Nat.pos_of_ne_zero hd)
  have hr0 : (0 : ℚ) ≤ ((n % d : ℕ) : ℚ) := by positivity
  have hquot : (n : ℚ) / d = (n / d : ℕ) + ((n % d : ℕ) : ℚ) / d := by
    rw [hdecomp]
    field_simp
    ring
  unfold nearest
  split
  · rename_i hc
    have h2 : (d : ℚ) ≤ 2 * ((n % d : ℕ) : ℚ) := by
      rcases hc with hc | ⟨hc, _⟩
      · have : ((d : ℕ) : ℚ) < ((2 * (n % d) : ℕ) : ℚ) := by exact_mod_cast hc
        push_cast at this
        linarith
      · have : ((2 * (n % d) : ℕ) : ℚ) = ((d : ℕ) : ℚ) := by exact_mod_cast hc
        push_cast at this
        linarith
    rw [hquot, abs_le]
    push_cast
    have h3 : (1 : ℚ) / 2 ≤ ((n % d : ℕ) : ℚ) / d := by
      rw [le_div_iff₀ hdq]; linarith
    have h4 : ((n % d : ℕ) : ℚ) / d < 1 := by
      rw [div_lt_iff₀ hdq]; linarith
    constructor <;> linarith
  · rename_i hc
    have h2 : 2 * ((n % d : ℕ) : ℚ) ≤ d := by
      have : ¬ (d < 2 * (n % d)) := fun h => hc (Or.inl h)
      have : 2 * (n % d) ≤ d := by omega
      have : ((2 * (n % d) : ℕ) : ℚ) ≤ ((d : ℕ) : ℚ) := by exact_mod_cast this
      push_cast at this
      linarith
    rw [hquot, abs_le]
    have h3 : ((n % d : ℕ) : ℚ) / d ≤ 1 / 2 := by
      rw [div_le_iff₀ hdq]; linarith
    have h4 : (0 : ℚ) ≤ ((n % d : ℕ) : ℚ) / d := by positivity
    constructor <;> linarith

theorem round_core (neg : Bool) (num den : Nat) (e : Int) (hn : num ≠ 0) (hd : den ≠ 0)
    (hlo : (2 : ℚ) ^ (-1022 : ℤ) ≤ (num : ℚ) / den * 2 ^ e)
    (hhi : (num : ℚ) / den * 2 ^ e < 2 ^ (1023 : ℤ)) :
    ∃ q : Nat, round neg num den e = .fin neg q (ilog2 num den + e - 52) ∧
      |(q : ℚ) - (num : ℚ) / den * 2 ^ (52 - ilog2 num den)| ≤ 1 / 2 := by
  obtain ⟨l1, l2⟩ := ilog2_spec num den hn hd
  have hpe := two_zpow_pos e
  have hv1 : (2 : ℚ) ^ (ilog2 num den + e) ≤ (num : ℚ) / den * 2 ^ e := by
    rw [zpow_add₀ (by norm_num : (2 : ℚ) ≠ 0)]
    exact mul_le_mul_of_nonneg_right l1 hpe.le
  have hv2 : (num : ℚ) / den * 2 ^ e < 2 ^ (ilog2 num den + e + 1) := by
    have : ilog2 num den + e + 1 = (ilog2 num den + 1) + e := by ring
    rw [this, zpow_add₀ (by norm_num : (2 : ℚ) ≠ 0)]
    exact mul_lt_mul_of_pos_right l2 hpe
  have hL1 : -1022 < ilog2 num den + e + 1 := two_zpow_lt (lt_of_le_of_lt hlo hv2)
  have hL2 : ilog2 num den + e < 1023 := two_zpow_lt (lt_of_le_of_lt hv1 hhi)
  have het : max (ilog2 num den + e - 52) (-1074) = ilog2 num den + e - 52 :=
    max_eq_left (by omega)
  have hs : e - (ilog2 num den + e - 52) = 52 - ilog2 num den := by ring
  refine ⟨nearest (num * 2 ^ (52 - ilog2 num den).toNat)
    (den * 2 ^ (-(52 - ilog2 num den)).toNat), ?_, ?_⟩
  · unfold round
    rw [if_neg hn]
    simp only [het, hs]
    rw [if_neg]
    intro h
    rcases h with h | ⟨h, _⟩ <;> omega
  · have hd2 : den * 2 ^ (-(52 - ilog2 num den)).toNat ≠ 0 := by positivity
    have key := nearest_div (num * 2 ^ (52 - ilog2 num den).toNat)
      (den * 2 ^ (-(52 - ilog2 num den)).toNat) hd2
    have hval : ((num * 2 ^ (52 - ilog2 num den).toNat : ℕ) : ℚ)
        / ((den * 2 ^ (-(52 - ilog2 num den)).toNat : ℕ) : ℚ)
        = (num : ℚ) / den * 2 ^ (52 - ilog2 num den) := by
      rw [zpow_toNat (52 - ilog2 num den)]
      push_cast
      have hdq : (den : ℚ) ≠ 0 := by exact_mod_cast hd
      field_simp
    rw [hval] at key
    exact key


theorem round_approx (neg : Bool) (num den : Nat) (e : Int) (hn : num ≠ 0) (hd : den ≠ 0)
    (hlo : (2 : ℚ) ^ (-1022 : ℤ) ≤ (num : ℚ) / den * 2 ^ e)
    (hhi : (num : ℚ) / den * 2 ^ e < 2 ^ (1023 : ℤ)) :
    ∃ (q : Nat) (et : Int), round neg num den e = .fin neg q et ∧
      |(q : ℚ) * 2 ^ et - (num : ℚ) / den * 2 ^ e| ≤ (num : ℚ) / den * 2 ^ e / 2 ^ 53 := by
  obtain ⟨q, hq, hb⟩ := round_core neg num den e hn hd hlo hhi
  obtain ⟨l1, _⟩ := ilog2_spec num den hn hd
  refine ⟨q, _, hq, ?_⟩
  have h2 : (2 : ℚ) ≠ 0 := by norm_num
  have hpe := two_zpow_pos (ilog2 num den + e - 52)
  have hX : (num : ℚ) / den * 2 ^ e
      = (num : ℚ) / den * 2 ^ (52 - ilog2 num den) * 2 ^ (ilog2 num den + e - 52) := by
    rw [mul_assoc, ← zpow_add₀ h2]
    congr 2
    ring
  have hfac : (q : ℚ) * 2 ^ (ilog2 num den + e - 52) - (num : ℚ) / den * 2 ^ e
      = ((q : ℚ) - (num : ℚ) / den * 2 ^ (52 - ilog2 num den))
        * 2 ^ (ilog2 num den + e - 52) := by
    rw [hX]; ring
  rw [hfac, abs_mul, abs_of_pos hpe]
  have hv : (2 : ℚ) ^ (ilog2 num den + e - 52) * 2 ^ (52 : ℕ) ≤ (num : ℚ) / den * 2 ^ e := by
    have e1 : (2 : ℚ) ^ (ilog2 num den + e - 52) * 2 ^ (52 : ℕ)
        = 2 ^ (ilog2 num den) * 2 ^ e := by
      rw [← zpow_natCast, ← zpow_add₀ h2, ← zpow_add₀ h2]
      congr 1
      push_cast
      ring
    rw [e1]
    exact mul_le_mul_of_nonneg_right l1 (two_zpow_pos e).le
  rw [le_div_iff₀ (by positivity)]
  have h53 : (2 : ℚ) ^ (53 : ℕ) = 2 * 2 ^ (52 : ℕ) := by norm_num
  rw [h53]
  have hab := abs_nonneg ((q : ℚ) - (num : ℚ) / den * 2 ^ (52 - ilog2 num den))
  nlinarith [mul_le_mul_of_nonneg_right hb (mul_nonneg hpe.le (by positivity : (0 : ℚ) ≤ 2 ^ (52 : ℕ)))]

theorem nat_eq_of_abs_sub_le_half (a b : Nat) (h : |(a : ℚ) - b| ≤ 1 / 2) : a = b := by
  have h1 : |((a : ℤ) - (b : ℤ) : ℤ)| < 1 := by
    have : |(((a : ℤ) - (b : ℤ) : ℤ) : ℚ)| < 1 := by
      push_cast
      linarith
    exact_mod_cast this
  have := Int.abs_lt_one_iff.mp h1
  omega

theorem ofInt_exact (n : Int) (h0 : 0 ≤ n) (h1 : n < 2 ^ 53) :
    ∃ (m : Nat) (e : Int), ofInt n = .fin false m e ∧ (m : ℚ) * 2 ^ e = n := by
  have hdec : decide (n < 0) = false := by simp [h0]
  unfold ofInt
  rw [hdec]
  by_cases hn : n.natAbs = 0
  · refine ⟨0, 0, ?_, ?_⟩
    · simp [round, hn]
    · have : n = 0 := Int.natAbs_eq_zero.mp hn
      simp [this]
  · have hN : ((n.natAbs : ℕ) : ℚ) = n := by
      rw [← Int.cast_natCast, Int.natAbs_of_nonneg h0]
    have hpos : (1 : ℚ) ≤ n := by
      have : 1 ≤ n := by omega
      exact_mod_cast this
    have hlt : (n : ℚ) < 2 ^ (53 : ℤ) := by
      have : ((n : ℤ) : ℚ) < ((2 ^ 53 : ℤ) : ℚ) := Int.cast_lt.mpr h1
      push_cast at this
      have e : (2 : ℚ) ^ (53 : ℤ) = 2 ^ (53 : ℕ) := by norm_num
      rw [e]
      exact this
    obtain ⟨q, hq, hb⟩ := round_core false n.natAbs 1 0 hn (by norm_num)
      (by
        rw [hN]; simp
        have : (2 : ℚ) ^ (-1022 : ℤ) ≤ 1 := by
          rw [zpow_neg]
          exact inv_le_one_of_one_le₀ (one_le_zpow₀ (by norm_num) (by norm_num))
        linarith)
      (by
        rw [hN]; simp
        have : (2 : ℚ) ^ (53 : ℤ) ≤ 2 ^ (1023 : ℤ) :=
          zpow_le_zpow_right₀ (by norm_num) (by norm_num)
        linarith)
    obtain ⟨l1, l2⟩ := ilog2_spec n.natAbs 1 hn (by norm_num)
    simp only [Nat.cast_one, div_one, hN] at l1 l2 hb
    have hL : ilog2 n.natAbs 1 < 53 := two_zpow_lt (lt_of_le_of_lt l1 hlt)
    have hk : (2 : ℚ) ^ (52 - ilog2 n.natAbs 1) = ((2 ^ (52 - ilog2 n.natAbs 1).toNat : ℕ) : ℚ) := by
      push_cast
      rw [← zpow_natCast, Int.toNat_of_nonneg (by omega)]
    have hqe : q = n.natAbs * 2 ^ (52 - ilog2 n.natAbs 1).toNat := by
      apply nat_eq_of_abs_sub_le_half
      rw [hk] at hb
      push_cast at hb ⊢
      rw [hN]
      exact hb
    refine ⟨q, _, hq, ?_⟩
    rw [hqe]
    push_cast
    rw [hN, ← zpow_natCast, Int.toNat_of_nonneg (by omega), mul_assoc,
      ← zpow_add₀ (by norm_num : (2 : ℚ) ≠ 0)]
    have : 52 - ilog2 n.natAbs 1 + (ilog2 n.natAbs 1 + 0 - 52) = 0 := by ring
    rw [this, zpow_zero, mul_one]

theorem lt_fin_nonneg (m n : Nat) (e f : Int) :
    lt (.fin false m e) (.fin false n f) = true ↔ (m : ℚ) * 2 ^ e < (n : ℚ) * 2 ^ f := by
  have h2 : (2 : ℚ) ≠ 0 := by norm_num
  unfold lt scaled
  simp only [decide_eq_true_eq, Bool.false_eq_true, if_false, one_mul]
  have hp := two_zpow_pos (min e f)
  have c1 : (((m : ℤ) * 2 ^ (e - min e f).toNat : ℤ) : ℚ) * 2 ^ (min e f) = (m : ℚ) * 2 ^ e := by
    push_cast
    rw [← zpow_natCast, Int.toNat_of_nonneg (by omega), mul_assoc, ← zpow_add₀ h2]
    congr 2
    ring
  have c2 : (((n : ℤ) * 2 ^ (f - min e f).toNat : ℤ) : ℚ) * 2 ^ (min e f) = (n : ℚ) * 2 ^ f := by
    push_cast
    rw [← zpow_natCast, Int.toNat_of_nonneg (by omega), mul_assoc, ← zpow_add₀ h2]
    congr 2
    ring
  rw [← c1, ← c2]
  constructor
  · intro h
    have : (((m : ℤ) * 2 ^ (e - min e f).toNat : ℤ) : ℚ)
        < (((n : ℤ) * 2 ^ (f - min e f).toNat : ℤ) : ℚ) := by exact_mod_cast h
    exact mul_lt_mul_of_pos_right this hp
  · intro h
    have := lt_of_mul_lt_mul_right h hp.le
    exact_mod_cast this

theorem arith_core (a t K v3 v4 u : ℚ) (ha : 0 ≤ a) (ht : 0 < t) (hu0 : 0 < u)
    (hu1 : u ≤ 1 / 8) (hK : K * u ≤ 1 / 4)
    (h3lo : a / t * (1 - u) ≤ v3) (h3hi : v3 ≤ a / t * (1 + u))
    (h4lo : v3 * 100 * (1 - u) ≤ v4) (h4hi : v4 ≤ v3 * 100 * (1 + u)) :
    (100 * a + 1 ≤ K → v4 * t < K) ∧ (K + 1 ≤ 100 * a → K ≤ v4 * t) := by
  have hrt : a / t * t = a := by field_simp
  have hw3lo : a * (1 - u) ≤ v3 * t := by
    have := mul_le_mul_of_nonneg_right h3lo ht.le
    calc a * (1 - u) = a / t * (1 - u) * t := by rw [mul_right_comm, hrt]
      _ ≤ v3 * t := this
  have hw3hi : v3 * t ≤ a * (1 + u) := by
    have := mul_le_mul_of_nonneg_right h3hi ht.le
    calc v3 * t ≤ a / t * (1 + u) * t := this
      _ = a * (1 + u) := by rw [mul_right_comm, hrt]
  have hw4hi : v4 * t ≤ 100 * a * ((1 + u) * (1 + u)) := by
    have h1 := mul_le_mul_of_nonneg_right h4hi ht.le
    have h2 : v3 * t * (100 * (1 + u)) ≤ a * (1 + u) * (100 * (1 + u)) :=
      mul_le_mul_of_nonneg_right hw3hi (by linarith)
    calc v4 * t ≤ v3 * 100 * (1 + u) * t := h1
      _ = v3 * t * (100 * (1 + u)) := by ring
      _ ≤ a * (1 + u) * (100 * (1 + u)) := h2
      _ = 100 * a * ((1 + u) * (1 + u)) := by ring
  have hw4lo : 100 * a * ((1 - u) * (1 - u)) ≤ v4 * t := by
    have h1 := mul_le_mul_of_nonneg_right h4lo ht.le
    have h2 : a * (1 - u) * (100 * (1 - u)) ≤ v3 * t * (100 * (1 - u)) :=
      mul_le_mul_of_nonneg_right hw3lo (by linarith)
    calc 100 * a * ((1 - u) * (1 - u)) = a * (1 - u) * (100 * (1 - u)) := by ring
      _ ≤ v3 * t * (100 * (1 - u)) := h2
      _ = v3 * 100 * (1 - u) * t := by ring
      _ ≤ v4 * t := h1
  have huu : u * u ≤ u := by
    have := mul_le_mul_of_nonneg_right (by linarith : u ≤ 1) hu0.le
    linarith
  have huu0 : 0 ≤ u * u := by positivity
  constructor
  · intro h
    have hK0 : 0 ≤ K - 1 := by linarith
    have s1 : (1 + u) * (1 + u) ≤ 1 + 3 * u := by
      have : (1 + u) * (1 + u) = 1 + 2 * u + u * u := by ring
      linarith
    have s2 : 100 * a * ((1 + u) * (1 + u)) ≤ (K - 1) * (1 + 3 * u) :=
      mul_le_mul (by linarith) s1 (by positivity) hK0
    have s3 : (K - 1) * (1 + 3 * u) = K - 1 + 3 * (K * u) - 3 * u := by ring
    linarith
  · intro h
    have s1 : 1 - 2 * u ≤ (1 - u) * (1 - u) := by
      have : (1 - u) * (1 - u) = 1 - 2 * u + u * u := by ring
      linarith
    have h100 : 0 ≤ 100 * a := by positivity
    have s2 : 100 * a * (1 - 2 * u) ≤ 100 * a * ((1 - u) * (1 - u)) :=
      mul_le_mul_of_nonneg_left s1 h100
    have s3 : (K + 1) * (1 - 2 * u) ≤ 100 * a * (1 - 2 * u) :=
      mul_le_mul_of_nonneg_right h (by linarith)
    have s4 : (K + 1) * (1 - 2 * u) = K + 1 - 2 * (K * u) - 2 * u := by ring
    linarith

theorem div_approx (m1 m2 : Nat) (e1 e2 : Int) (hm2 : m2 ≠ 0)
    (hr : m1 ≠ 0 → (2 : ℚ) ^ (-1022 : ℤ) ≤ ((m1 : ℚ) * 2 ^ e1) / ((m2 : ℚ) * 2 ^ e2) ∧
      ((m1 : ℚ) * 2 ^ e1) / ((m2 : ℚ) * 2 ^ e2) < 2 ^ (1023 : ℤ)) :
    ∃ (m3 : Nat) (e3 : Int), div (.fin false m1 e1) (.fin false m2 e2) = .fin false m3 e3 ∧
      |(m3 : ℚ) * 2 ^ e3 - ((m1 : ℚ) * 2 ^ e1) / ((m2 : ℚ) * 2 ^ e2)|
        ≤ ((m1 : ℚ) * 2 ^ e1) / ((m2 : ℚ) * 2 ^ e2) / 2 ^ 53 := by
  have hdiv : div (.fin false m1 e1) (.fin false m2 e2) = round false m1 m2 (e1 - e2) := by
    simp [div, hm2]
  rw [hdiv]
  by_cases hm1 : m1 = 0
  · refine ⟨0, 0, ?_, ?_⟩
    · simp [round, hm1]
    · simp [hm1]
  · have hval : (m1 : ℚ) / m2 * 2 ^ (e1 - e2) = ((m1 : ℚ) * 2 ^ e1) / ((m2 : ℚ) * 2 ^ e2) := by
      rw [zpow_sub₀ (by norm_num : (2 : ℚ) ≠ 0)]
      have h1 : (m2 : ℚ) ≠ 0 := by exact_mod_cast hm2
      have h2 := (two_zpow_pos e2).ne'
      field_simp
    obtain ⟨hlo, hhi⟩ := hr hm1
    rw [← hval] at hlo hhi ⊢
    exact round_approx false m1 m2 (e1 - e2) hm1 hm2 hlo hhi

theorem mul_approx (m1 m2 : Nat) (e1 e2 : Int)
    (hr : m1 * m2 ≠ 0 → (2 : ℚ) ^ (-1022 : ℤ) ≤ ((m1 : ℚ) * 2 ^ e1) * ((m2 : ℚ) * 2 ^ e2) ∧
      ((m1 : ℚ) * 2 ^ e1) * ((m2 : ℚ) * 2 ^ e2) < 2 ^ (1023 : ℤ)) :
    ∃ (m3 : Nat) (e3 : Int), mul (.fin false m1 e1) (.fin false m2 e2) = .fin false m3 e3 ∧
      |(m3 : ℚ) * 2 ^ e3 - ((m1 : ℚ) * 2 ^ e1) * ((m2 : ℚ) * 2 ^ e2)|
        ≤ ((m1 : ℚ) * 2 ^ e1) * ((m2 : ℚ) * 2 ^ e2) / 2 ^ 53 := by
  have hmul : mul (.fin false m1 e1) (.fin false m2 e2) = round false (m1 * m2) 1 (e1 + e2) := by
    simp [mul]
  rw [hmul]
  by_cases hm : m1 * m2 = 0
  · refine ⟨0, 0, ?_, ?_⟩
    · simp [round, hm]
    · have : (m1 : ℚ) * m2 = 0 := by exact_mod_cast hm
      have e : ((m1 : ℚ) * 2 ^ e1) * ((m2 : ℚ) * 2 ^ e2) = (m1 : ℚ) * m2 * (2 ^ e1 * 2 ^ e2) := by
        ring
      rw [e, this]
      simp
  · have hval : ((m1 * m2 : ℕ) : ℚ) / (1 : ℕ) * 2 ^ (e1 + e2)
        = ((m1 : ℚ) * 2 ^ e1) * ((m2 : ℚ) * 2 ^ e2) := by
      rw [zpow_add₀ (by norm_num : (2 : ℚ) ≠ 0)]
      push_cast
      ring
    obtain ⟨hlo, hhi⟩ := hr hm
    rw [← hval] at hlo hhi ⊢
    exact round_approx false (m1 * m2) 1 (e1 + e2) hm (by norm_num) hlo hhi

end F64

/-! ## Theorems: alert evaluation (package `resources`) -/

namespace resources

open state F64

theorem wrap64_id (n : Int) (h1 : -2 ^ 63 ≤ n) (h2 : n < 2 ^ 63) : wrap64 n = n := by
  unfold wrap64
  have e : (n + 2 ^ 63) % 2 ^ 64 = n + 2 ^ 63 :=
    Int.emod_eq_of_lt (by omega) (by omega)
  rw [e]
  ring

theorem lowRAMWarned_checkAlerts (s : AppState) (snap : ResourceSnapshot)
    (h : s.LatestResource = some snap) :
    lowRAMWarned (checkAlerts s) =
      (decide (snap.RAMTotalMB > 0) &&
        F64.lt (availPercent snap) (F64.ofInt s.config.Alerts.RAMAvailablePercentMin)) := by
  unfold checkAlerts
  simp only [h, AppState.Config]
  unfold ramAlert diskAlert gpuAlert lowRAMWarned
  by_cases h1 : snap.RAMTotalMB > 0 <;>
  by_cases h2 : F64.lt (availPercent snap) (F64.ofInt s.config.Alerts.RAMAvailablePercentMin) = true <;>
  by_cases h3 : F64.lt (F64.ofInt 0) snap.DiskTotalGB = true <;>
  by_cases h4 : F64.lt (F64.sub snap.DiskTotalGB snap.DiskUsedGB)
      (F64.ofInt s.config.Alerts.DiskFreeGBMin) = true <;>
  by_cases h5 : F64.lt (F64.ofInt s.config.Alerts.GPUUtilizationPercent) snap.GPUPercent = true <;>
  simp [h1, h2, h3, h4, h5]

theorem two_pow_neg_le (k : ℕ) (hk : k ≤ 1022) : (2 : ℚ) ^ (-1022 : ℤ) ≤ 2 ^ (-(k : ℤ)) :=
  zpow_le_zpow_right₀ (by norm_num) (by omega)

theorem availPercent_bounds (snap : ResourceSnapshot)
    (hu : 0 ≤ snap.RAMUsedMB) (hut : snap.RAMUsedMB ≤ snap.RAMTotalMB)
    (ht : 0 < snap.RAMTotalMB) (ht2 : snap.RAMTotalMB < 2 ^ 53) :
    ∃ (m4 : Nat) (e4 : Int) (v3 : ℚ), availPercent snap = .fin false m4 e4 ∧
      |v3 - ((snap.RAMTotalMB - snap.RAMUsedMB : ℤ) : ℚ) / (snap.RAMTotalMB : ℚ)|
        ≤ ((snap.RAMTotalMB - snap.RAMUsedMB : ℤ) : ℚ) / (snap.RAMTotalMB : ℚ) / 2 ^ 53 ∧
      |(m4 : ℚ) * 2 ^ e4 - v3 * 100| ≤ v3 * 100 / 2 ^ 53 := by
  set a : ℤ := snap.RAMTotalMB - snap.RAMUsedMB with ha
  have ha0 : 0 ≤ a := by omega
  have hat : a ≤ snap.RAMTotalMB := by omega
  have hw : wrap64 a = a := wrap64_id a (by omega) (by omega)
  obtain ⟨m1, e1, hx1, hv1⟩ := ofInt_exact a ha0 (by omega)
  obtain ⟨m2, e2, hx2, hv2⟩ := ofInt_exact snap.RAMTotalMB ht.le ht2
  obtain ⟨mc, ec, hxc, hvc⟩ := ofInt_exact 100 (by norm_num) (by norm_num)
  have htq : (1 : ℚ) ≤ (snap.RAMTotalMB : ℚ) := by exact_mod_cast ht
  have htq2 : (snap.RAMTotalMB : ℚ) < 2 ^ 53 := by exact_mod_cast ht2
  have haq0 : (0 : ℚ) ≤ (a : ℚ) := by exact_mod_cast ha0
  have haqt : (a : ℚ) ≤ (snap.RAMTotalMB : ℚ) := by exact_mod_cast hat
  have hm2 : m2 ≠ 0 := by
    intro h0
    rw [h0] at hv2
    simp at hv2
    linarith
  have hr_nonneg : (0 : ℚ) ≤ (a : ℚ) / (snap.RAMTotalMB : ℚ) := div_nonneg haq0 (by linarith)
  have hr_le1 : (a : ℚ) / (snap.RAMTotalMB : ℚ) ≤ 1 := by
    rw [div_le_one (by linarith)]; exact haqt
  have h1023 : (2 : ℚ) ≤ 2 ^ (1023 : ℤ) := by
    have := zpow_le_zpow_right₀ (by norm_num : (1 : ℚ) ≤ 2) (by norm_num : (1 : ℤ) ≤ 1023)
    simpa using this
  obtain ⟨m3, e3, hx3, hb3⟩ := div_approx m1 m2 e1 e2 hm2 (by
    intro hm1
    rw [hv1, hv2]
    have ha1 : (1 : ℚ) ≤ (a : ℚ) := by
      have : a ≠ 0 := by
        intro h0
        rw [h0] at hv1
        have : (m1 : ℚ) = 0 := by
          have hp := (two_zpow_pos e1).ne'
          simpa [hp] using hv1
        exact hm1 (by exact_mod_cast this)
      have : 1 ≤ a := by omega
      exact_mod_cast this
    constructor
    · have h53 : (2 : ℚ) ^ (-((53 : ℕ) : ℤ)) ≤ (a : ℚ) / (snap.RAMTotalMB : ℚ) := by
        rw [zpow_neg, zpow_natCast, le_div_iff₀ (by linarith)]
        have : (snap.RAMTotalMB : ℚ) ≤ 2 ^ 53 := htq2.le
        have hpos : (0 : ℚ) < 2 ^ 53 := by positivity
        calc ((2 : ℚ) ^ 53)⁻¹ * (snap.RAMTotalMB : ℚ) ≤ ((2 : ℚ) ^ 53)⁻¹ * 2 ^ 53 :=
              mul_le_mul_of_nonneg_left this (by positivity)
          _ = 1 := inv_mul_cancel₀ hpos.ne'
          _ ≤ (a : ℚ) := ha1
      exact le_trans (two_pow_neg_le 53 (by norm_num)) h53
    · linarith)
  rw [hv1, hv2] at hb3
  set v3 : ℚ := (m3 : ℚ) * 2 ^ e3 with hv3
  obtain ⟨b3lo, b3hi⟩ := abs_le.mp hb3
  have hu53 : (0 : ℚ) < 1 / 2 ^ 53 := by positivity
  have hu_small : (1 : ℚ) / 2 ^ 53 ≤ 1 / 2 := by norm_num
  have hv3_lo : (a : ℚ) / (snap.RAMTotalMB : ℚ) * (1 - 1 / 2 ^ 53) ≤ v3 := by
    have : (a : ℚ) / (snap.RAMTotalMB : ℚ) / 2 ^ 53
        = (a : ℚ) / (snap.RAMTotalMB : ℚ) * (1 / 2 ^ 53) := by ring
    linarith
  have hv3_hi : v3 ≤ (a : ℚ) / (snap.RAMTotalMB : ℚ) * (1 + 1 / 2 ^ 53) := by
    have : (a : ℚ) / (snap.RAMTotalMB : ℚ) / 2 ^ 53
        = (a : ℚ) / (snap.RAMTotalMB : ℚ) * (1 / 2 ^ 53) := by ring
    linarith
  obtain ⟨m4, e4, hx4, hb4⟩ := mul_approx m3 mc e3 ec (by
    intro hm
    rw [hvc]
    have hm3 : m3 ≠ 0 := by
      intro h0; apply hm; rw [h0]; simp
    have hv3pos : 0 < v3 := by
      rw [hv3]
      have : (0 : ℚ) < m3 := by exact_mod_cast Nat.pos_of_ne_zero hm3
      exact mul_pos this (two_zpow_pos e3)
    have hrpos : (0 : ℚ) < (a : ℚ) / (snap.RAMTotalMB : ℚ) := by
      by_contra hc
      have h0 : (a : ℚ) / (snap.RAMTotalMB : ℚ) = 0 := le_antisymm (not_lt.mp hc) hr_nonneg
      rw [h0] at hv3_hi
      linarith
    have ha1 : (1 : ℚ) ≤ (a : ℚ) := by
      have hapos : (0 : ℚ) < (a : ℚ) := by
        by_contra hc
        have h0 : (a : ℚ) = 0 := le_antisymm (not_lt.mp hc) haq0
        rw [h0] at hrpos
        simp at hrpos
      have : (0 : ℤ) < a := by exact_mod_cast hapos
      have : (1 : ℤ) ≤ a := by omega
      exact_mod_cast this
    have hr53 : (1 : ℚ) / 2 ^ 53 ≤ (a : ℚ) / (snap.RAMTotalMB : ℚ) := by
      rw [div_le_div_iff₀ (by positivity) (by linarith)]
      nlinarith
    constructor
    · have h54 : (2 : ℚ) ^ (-((54 : ℕ) : ℤ)) ≤ v3 * ((100 : ℤ) : ℚ) := by
        rw [zpow_neg, zpow_natCast]
        have e54 : ((2 : ℚ) ^ 54)⁻¹ = 1 / 2 ^ 53 * (1 / 2) := by norm_num
        rw [e54]
        have h1 : (1 : ℚ) / 2 ^ 53 * (1 / 2) ≤ (a : ℚ) / (snap.RAMTotalMB : ℚ) * (1 - 1 / 2 ^ 53) :=
          mul_le_mul hr53 (by norm_num) (by norm_num) hr_nonneg
        have h2 : v3 ≤ v3 * ((100 : ℤ) : ℚ) := by
          push_cast
          linarith
        linarith
      exact le_trans (two_pow_neg_le 54 (by norm_num)) h54
    · have : v3 ≤ 2 := by
        have : (a : ℚ) / (snap.RAMTotalMB : ℚ) * (1 + 1 / 2 ^ 53) ≤ 1 * 2 :=
          mul_le_mul hr_le1 (by norm_num) (by positivity) (by norm_num)
        linarith
      have h200 : v3 * ((100 : ℤ) : ℚ) ≤ 200 := by push_cast; linarith
      have : (200 : ℚ) < 2 ^ (1023 : ℤ) := by
        have := zpow_le_zpow_right₀ (by norm_num : (1 : ℚ) ≤ 2) (by norm_num : (8 : ℤ) ≤ 1023)
        have e8 : (2 : ℚ) ^ (8 : ℤ) = 256 := by norm_num
        linarith
      rw [← hv3]
      linarith)
  rw [hvc] at hb4
  refine ⟨m4, e4, v3, ?_, hb3, ?_⟩
  · unfold availPercent
    rw [hw, hx1, hx2, hx3, hxc, hx4]
  · push_cast at hb4
    exact hb4


/-- C8 (as stated) fails where the exact percentage equals the minimum:
with total 100 MB, used 71 MB and minimum 29 the exact available
percentage is 29, not below 29, yet `float64(29)/float64(100)*100` is
28.999999999999996 and the warning is emitted. -/
theorem checkAlerts_lowRAM_rounding :
    ¬ (∀ (s : AppState) (snap : ResourceSnapshot), s.LatestResource = some snap →
        snap.RAMTotalMB > 0 →
        (lowRAMWarned (checkAlerts s) = true ↔
          exactAvailPercent snap < (s.config.Alerts.RAMAvailablePercentMin : ℚ))) := by
  intro hall
  have h := hall (examples.alertStore 29 (examples.snapshot 100 71)) (examples.snapshot 100 71)
    rfl (by decide)
  have hw : lowRAMWarned (checkAlerts (examples.alertStore 29 (examples.snapshot 100 71))) = true := by
    set_option maxRecDepth 100000 in rfl
  have hlt := h.mp hw
  norm_num [exactAvailPercent, examples.alertStore, examples.snapshot, New,
    AppState.AddResourceSnapshot, examples.config] at hlt

/-- C8 (amended). For a latest snapshot with `0 ≤ used ≤ total`,
`0 < total < 2^53`, and a configured minimum with `0 ≤ min` and
`min * total < 2^51`, `checkAlerts` emits the low-RAM warning exactly when
the percentage it computes in `float64` is below the minimum; it does so
whenever the exact available percentage `(total - used) / total * 100` is
below the minimum and never when that percentage is above the minimum
(when the two are equal the rounding decides). -/
theorem checkAlerts_lowRAM (s : AppState) (snap : ResourceSnapshot)
    (hlatest : s.LatestResource = some snap)
    (hu : 0 ≤ snap.RAMUsedMB) (hut : snap.RAMUsedMB ≤ snap.RAMTotalMB)
    (ht : 0 < snap.RAMTotalMB) (ht2 : snap.RAMTotalMB < 2 ^ 53)
    (hm : 0 ≤ s.config.Alerts.RAMAvailablePercentMin)
    (hmt : s.config.Alerts.RAMAvailablePercentMin * snap.RAMTotalMB < 2 ^ 51) :
    (lowRAMWarned (checkAlerts s) =
      F64.lt (availPercent snap) (F64.ofInt s.config.Alerts.RAMAvailablePercentMin)) ∧
    (exactAvailPercent snap < (s.config.Alerts.RAMAvailablePercentMin : ℚ) →
      lowRAMWarned (checkAlerts s) = true) ∧
    ((s.config.Alerts.RAMAvailablePercentMin : ℚ) < exactAvailPercent snap →
      lowRAMWarned (checkAlerts s) = false) := by
  have hflag : lowRAMWarned (checkAlerts s) =
      F64.lt (availPercent snap) (F64.ofInt s.config.Alerts.RAMAvailablePercentMin) := by
    rw [lowRAMWarned_checkAlerts s snap hlatest]
    simp [ht]
  set M : ℤ := s.config.Alerts.RAMAvailablePercentMin with hM
  have hM53 : M < 2 ^ 53 := by
    by_contra hc
    have h1 : (2 : ℤ) ^ 53 ≤ M := not_lt.mp hc
    have h2 : M * 1 ≤ M * snap.RAMTotalMB := mul_le_mul_of_nonneg_left (by omega) hm
    omega
  obtain ⟨m5, e5, hx5, hv5⟩ := ofInt_exact M hm hM53
  obtain ⟨m4, e4, v3, hx4, hb3, hb4⟩ := availPercent_bounds snap hu hut ht ht2
  have hlt : F64.lt (availPercent snap) (F64.ofInt M) = true ↔ (m4 : ℚ) * 2 ^ e4 < (M : ℚ) := by
    rw [hx4, hx5, lt_fin_nonneg, hv5]
  have htq : (0 : ℚ) < (snap.RAMTotalMB : ℚ) := by exact_mod_cast ht
  have haq : (0 : ℚ) ≤ ((snap.RAMTotalMB - snap.RAMUsedMB : ℤ) : ℚ) := by
    have : 0 ≤ snap.RAMTotalMB - snap.RAMUsedMB := by omega
    exact_mod_cast this
  have hKq : (M : ℚ) * (snap.RAMTotalMB : ℚ) ≤ 2 ^ 51 := by
    have : ((M * snap.RAMTotalMB : ℤ) : ℚ) < ((2 ^ 51 : ℤ) : ℚ) := Int.cast_lt.mpr hmt
    push_cast at this
    exact this.le
  obtain ⟨b3lo, b3hi⟩ := abs_le.mp hb3
  obtain ⟨b4lo, b4hi⟩ := abs_le.mp hb4
  have core := F64.arith_core ((snap.RAMTotalMB - snap.RAMUsedMB : ℤ) : ℚ) (snap.RAMTotalMB : ℚ)
    ((M : ℚ) * (snap.RAMTotalMB : ℚ)) v3 ((m4 : ℚ) * 2 ^ e4) (1 / 2 ^ 53) haq htq
    (by positivity) (by norm_num)
    (by
      have := mul_le_mul_of_nonneg_right hKq (by positivity : (0 : ℚ) ≤ 1 / 2 ^ 53)
      have e : (2 : ℚ) ^ 51 * (1 / 2 ^ 53) = 1 / 4 := by norm_num
      linarith)
    (by
      have : ((snap.RAMTotalMB - snap.RAMUsedMB : ℤ) : ℚ) / (snap.RAMTotalMB : ℚ) / 2 ^ 53
          = ((snap.RAMTotalMB - snap.RAMUsedMB : ℤ) : ℚ) / (snap.RAMTotalMB : ℚ) * (1 / 2 ^ 53) := by
        ring
      linarith)
    (by
      have : ((snap.RAMTotalMB - snap.RAMUsedMB : ℤ) : ℚ) / (snap.RAMTotalMB : ℚ) / 2 ^ 53
          = ((snap.RAMTotalMB - snap.RAMUsedMB : ℤ) : ℚ) / (snap.RAMTotalMB : ℚ) * (1 / 2 ^ 53) := by
        ring
      linarith)
    (by
      have : v3 * 100 / 2 ^ 53 = v3 * 100 * (1 / 2 ^ 53) := by ring
      linarith)
    (by
      have : v3 * 100 / 2 ^ 53 = v3 * 100 * (1 / 2 ^ 53) := by ring
      linarith)
  refine ⟨hflag, ?_, ?_⟩
  · intro hex
    rw [hflag, hlt]
    unfold exactAvailPercent at hex
    rw [div_mul_eq_mul_div, div_lt_iff₀ htq] at hex
    have hint : (snap.RAMTotalMB - snap.RAMUsedMB) * 100 < M * snap.RAMTotalMB := by
      exact_mod_cast hex
    have hint2 : 100 * (snap.RAMTotalMB - snap.RAMUsedMB) + 1 ≤ M * snap.RAMTotalMB := by omega
    have hq : 100 * ((snap.RAMTotalMB - snap.RAMUsedMB : ℤ) : ℚ) + 1
        ≤ (M : ℚ) * (snap.RAMTotalMB : ℚ) := by exact_mod_cast hint2
    exact lt_of_mul_lt_mul_right (core.1 hq) htq.le
  · intro hex
    have hnot : ¬ ((m4 : ℚ) * 2 ^ e4 < (M : ℚ)) := by
      unfold exactAvailPercent at hex
      rw [div_mul_eq_mul_div, lt_div_iff₀ htq] at hex
      have hint : M * snap.RAMTotalMB < (snap.RAMTotalMB - snap.RAMUsedMB) * 100 := by
        exact_mod_cast hex
      have hint2 : M * snap.RAMTotalMB + 1 ≤ 100 * (snap.RAMTotalMB - snap.RAMUsedMB) := by omega
      have hq : (M : ℚ) * (snap.RAMTotalMB : ℚ) + 1
          ≤ 100 * ((snap.RAMTotalMB - snap.RAMUsedMB : ℤ) : ℚ) := by exact_mod_cast hint2
      exact not_lt.mpr (le_of_mul_le_mul_right (core.2 hq) htq)
    rw [hflag]
    cases hb : F64.lt (availPercent snap) (F64.ofInt M) with
    | false => rfl
    | true => exact absurd (hlt.mp hb) hnot

theorem checkAlerts_lowRAM_witness :
    lowRAMWarned (checkAlerts (examples.alertStore 10 (examples.snapshot 1000 950))) = true ∧
    lowRAMWarned (checkAlerts (examples.alertStore 10 (examples.snapshot 1000 800))) = false :=
  ⟨(checkAlerts_lowRAM (examples.alertStore 10 (examples.snapshot 1000 950))
      (examples.snapshot 1000 950) rfl (by decide) (by decide) (by decide) (by decide)
      (by decide) (by decide)).2.1
      (by norm_num [exactAvailPercent, examples.alertStore, examples.snapshot, New,
        AppState.AddResourceSnapshot, examples.config]),
   (checkAlerts_lowRAM (examples.alertStore 10 (examples.snapshot 1000 800))
      (examples.snapshot 1000 800) rfl (by decide) (by decide) (by decide) (by decide)
      (by decide) (by decide)).2.2
      (by norm_num [exactAvailPercent, examples.alertStore, examples.snapshot, New,
        AppState.AddResourceSnapshot, examples.config])⟩

end resources

/-! ## Theorems: inbound frames and the bridge constructor (package `mattermost`) -/

namespace mattermost

open state

/-- C11. For every inbound frame with event `posted` whose `data.post` is a
string that decodes to a post, and with the queue not full, `handleEvent`
enqueues exactly one message, at the tail, whose thread ID is the post's
root ID when that is non-empty and the post's own ID otherwise, and whose
channel ID, user ID, text and post ID are those of the post; a frame that
fails to decode, whose event is not `posted`, whose `data.post` is not a
string, or whose post fails to decode leaves the bridge unchanged. -/
theorem handleEvent_posted (d : Decoder) (b : Bridge) (raw postJSON : String)
    (data : List (String × Any)) (post : Post)
    (hev : d.UnmarshalEvent raw = .ok ⟨"posted", data⟩)
    (hdata : lookup data "post" = some (.str postJSON))
    (hpost : d.UnmarshalPost postJSON = .ok post)
    (hroom : b.msgCh.buf.length < b.msgCh.cap) :
    (∃ msg : Message,
      (b.handleEvent d raw).1.msgCh.buf = b.msgCh.buf ++ [msg] ∧
      msg.ThreadID = (if post.RootID ≠ "" then post.RootID else post.ID) ∧
      msg.ChannelID = post.ChannelID ∧ msg.UserID = post.UserID ∧
      msg.Text = post.Message ∧ msg.PostID = post.ID) ∧
    (∀ (d2 : Decoder) (raw2 : String) (e : Err),
      d2.UnmarshalEvent raw2 = .error e → (b.handleEvent d2 raw2).1 = b) ∧
    (∀ (d2 : Decoder) (raw2 : String) (ev : EventFrame),
      d2.UnmarshalEvent raw2 = .ok ev → ev.Event ≠ "posted" → (b.handleEvent d2 raw2).1 = b) ∧
    (∀ (d2 : Decoder) (raw2 : String) (ev : EventFrame),
      d2.UnmarshalEvent raw2 = .ok ev → (∀ p, lookup ev.Data "post" ≠ some (.str p)) →
      (b.handleEvent d2 raw2).1 = b) ∧
    (∀ (d2 : Decoder) (raw2 p : String) (ev : EventFrame) (e : Err),
      d2.UnmarshalEvent raw2 = .ok ev → lookup ev.Data "post" = some (.str p) →
      d2.UnmarshalPost p = .error e → (b.handleEvent d2 raw2).1 = b) := by
  refine ⟨⟨messageOf post, ?_, ?_, rfl, rfl, rfl, rfl⟩, ?_, ?_, ?_, ?_⟩
  · simp [Bridge.handleEvent, hev, hdata, hpost, Chan.trySend, hroom, messageOf]
  · by_cases h : post.RootID = "" <;> simp [messageOf, h]
  · intro d2 raw2 e h
    simp [Bridge.handleEvent, h]
  · intro d2 raw2 ev h hne
    simp [Bridge.handleEvent, h, hne]
  · intro d2 raw2 ev h hl
    unfold Bridge.handleEvent
    simp only [h]
    by_cases hp : ev.Event ≠ "posted"
    · simp [hp]
    · cases hlk : lookup ev.Data "post" with
      | none => simp [hp]
      | some v =>
        cases v with
        | str p => exact absurd hlk (hl p)
        | other => simp [hp]
  · intro d2 raw2 p ev e h hl hp
    unfold Bridge.handleEvent
    simp only [h]
    split
    · rfl
    · simp [hl, hp]

theorem handleEvent_posted_witness :
    ∃ msg : Message,
      (examples.bridge.handleEvent examples.decoder "frame").1.msgCh.buf
        = examples.bridge.msgCh.buf ++ [msg] ∧
      msg.ThreadID = "p1" ∧ msg.ChannelID = "ch1" ∧ msg.UserID = "u1" ∧
      msg.Text = "hello" ∧ msg.PostID = "p1" :=
  (handleEvent_posted examples.decoder examples.bridge "frame" "post-json"
    [("post", .str "post-json")] examples.post rfl rfl rfl (by decide)).1

/-- C12. `NewBridge` returns an error, and no bridge, exactly when the
connection URL or the bot credential is empty; otherwise it returns a
bridge holding the three strings, with an empty inbound queue of capacity
100. -/
theorem NewBridge_error_iff (wsURL apiURL botToken : String) :
    ((∃ e, NewBridge wsURL apiURL botToken = .error e) ↔ (wsURL = "" ∨ botToken = "")) ∧
    (¬ (wsURL = "" ∨ botToken = "") →
      NewBridge wsURL apiURL botToken
        = .ok { wsURL := wsURL, apiURL := apiURL, botToken := botToken, msgCh := ⟨[], 100⟩ }) ∧
    (∀ b, NewBridge wsURL apiURL botToken = .ok b →
      b.msgCh.buf = [] ∧ b.msgCh.cap = 100 ∧ ¬ (wsURL = "" ∨ botToken = "")) := by
  by_cases h : wsURL = "" ∨ botToken = ""
  · refine ⟨?_, fun hn => absurd h hn, ?_⟩
    · simp [NewBridge, h]
    · intro b hb
      simp [NewBridge, h] at hb
  · refine ⟨?_, fun _ => by simp [NewBridge, h], ?_⟩
    · simp [NewBridge, h]
    · intro b hb
      simp only [NewBridge, h, if_false] at hb
      cases hb
      exact ⟨rfl, rfl, h⟩

end mattermost

/-! ## Theorems: worker registry (package `state`) -/

namespace state

theorem mapGet_mapSet_same (m : WorkerMap) (id : String) (w : Worker) :
    mapGet (mapSet m id w) id = some w := by
  induction m with
  | nil => simp [mapSet, mapGet]
  | cons kv rest ih =>
    obtain ⟨k, v⟩ := kv
    by_cases h : k = id
    · simp [mapSet, mapGet, h]
    · simp [mapSet, mapGet, h, ih]

theorem mapGet_mapSet_other (m : WorkerMap) (id k : String) (w : Worker) (h : k ≠ id) :
    mapGet (mapSet m k w) id = mapGet m id := by
  induction m with
  | nil => simp [mapSet, mapGet, h]
  | cons kv rest ih =>
    obtain ⟨k2, v⟩ := kv
    by_cases h2 : k2 = k
    · subst h2
      simp [mapSet, mapGet, h]
    · by_cases h3 : k2 = id
      · subst h3
        simp [mapSet, mapGet, h2]
      · simp [mapSet, mapGet, h2, h3, ih]

theorem mapDelete_cons (k : String) (v : Worker) (rest : WorkerMap) (id : String) :
    mapDelete ((k, v) :: rest) id
      = if k = id then mapDelete rest id else (k, v) :: mapDelete rest id := by
  unfold mapDelete
  by_cases h : k = id <;> simp [List.filter_cons, h]

theorem mapGet_mapDelete_same (m : WorkerMap) (id : String) :
    mapGet (mapDelete m id) id = none := by
  induction m with
  | nil => rfl
  | cons kv rest ih =>
    obtain ⟨k, v⟩ := kv
    rw [mapDelete_cons]
    by_cases h : k = id
    · rw [if_pos h]; exact ih
    · rw [if_neg h, mapGet, if_neg h]; exact ih

theorem mapGet_mapDelete_other (m : WorkerMap) (id k : String) (h : k ≠ id) :
    mapGet (mapDelete m k) id = mapGet m id := by
  induction m with
  | nil => rfl
  | cons kv rest ih =>
    obtain ⟨k2, v⟩ := kv
    rw [mapDelete_cons]
    by_cases h2 : k2 = k
    · subst h2
      rw [if_pos rfl, mapGet, if_neg h]; exact ih
    · rw [if_neg h2]
      by_cases h3 : k2 = id
      · simp [mapGet, h3]
      · simp [mapGet, h3, ih]

theorem keys_mapSet (m : WorkerMap) (id : String) (w : Worker) (k : String) :
    k ∈ (mapSet m id w).map (fun kv => kv.1) ↔ k = id ∨ k ∈ m.map (fun kv => kv.1) := by
  induction m with
  | nil => simp [mapSet]
  | cons kv rest ih =>
    obtain ⟨k2, v⟩ := kv
    by_cases h : k2 = id
    · subst h
      simp [mapSet]
    · simp only [mapSet, h, if_false, List.map_cons, List.mem_cons, ih]
      tauto

theorem WellKeyed_mapSet (m : WorkerMap) (w : Worker) (h : WellKeyed m) :
    WellKeyed (mapSet m w.ID w) := by
  induction m with
  | nil =>
    refine ⟨by simp [mapSet], ?_⟩
    intro kv hkv
    simp [mapSet] at hkv
    subst hkv
    rfl
  | cons kv rest ih =>
    obtain ⟨k, v⟩ := kv
    obtain ⟨hnd, hid⟩ := h
    simp only [List.map_cons, List.nodup_cons] at hnd
    have hrest : WellKeyed rest := ⟨hnd.2, fun x hx => hid x (List.mem_cons_of_mem _ hx)⟩
    by_cases hk : k = w.ID
    · simp only [mapSet, hk, if_true]
      refine ⟨?_, ?_⟩
      · simp only [List.map_cons, List.nodup_cons]
        exact ⟨hk ▸ hnd.1, hnd.2⟩
      · intro x hx
        rcases List.mem_cons.mp hx with hx | hx
        · subst hx; rfl
        · exact hid x (List.mem_cons_of_mem _ hx)
    · simp only [mapSet, hk, if_false]
      obtain ⟨ind, iid⟩ := ih hrest
      refine ⟨?_, ?_⟩
      · simp only [List.map_cons, List.nodup_cons]
        refine ⟨?_, ind⟩
        intro hmem
        rcases (keys_mapSet rest w.ID w k).mp hmem with h1 | h1
        · exact hk h1
        · exact hnd.1 h1
      · intro x hx
        rcases List.mem_cons.mp hx with hx | hx
        · subst hx; exact hid _ (List.mem_cons_self _ _)
        · exact iid x hx

theorem WellKeyed_mapDelete (m : WorkerMap) (id : String) (h : WellKeyed m) :
    WellKeyed (mapDelete m id) := by
  obtain ⟨hnd, hid⟩ := h
  unfold mapDelete
  refine ⟨?_, ?_⟩
  · exact (List.Nodup.sublist ((List.filter_sublist m).map _) hnd)
  · intro x hx
    exact hid x (List.mem_of_mem_filter hx)

theorem WellKeyed_filter_length (m : WorkerMap) (id : String) (h : WellKeyed m) :
    ((m.map (fun kv => kv.2)).filter (fun w => decide (w.ID = id))).length ≤ 1 := by
  induction m with
  | nil => simp
  | cons kv rest ih =>
    obtain ⟨k, v⟩ := kv
    obtain ⟨hnd, hid⟩ := h
    simp only [List.map_cons, List.nodup_cons] at hnd
    have hrest : WellKeyed rest := ⟨hnd.2, fun x hx => hid x (List.mem_cons_of_mem _ hx)⟩
    have hv : v.ID = k := hid (k, v) (List.mem_cons_self _ _)
    by_cases hk : v.ID = id
    · have hnone : (rest.map (fun kv => kv.2)).filter (fun w => decide (w.ID = id)) = [] := by
        rw [List.filter_eq_nil_iff]
        intro w hw
        simp only [List.mem_map] at hw
        obtain ⟨x, hx, rfl⟩ := hw
        have hxid := hid x (List.mem_cons_of_mem _ hx)
        simp only [decide_eq_true_eq]
        intro hc
        apply hnd.1
        simp only [List.mem_map]
        exact ⟨x, hx, by rw [← hxid, hc, ← hk, hv]⟩
      simp [List.filter_cons, hk, hnone]
    · simp only [List.map_cons, List.filter_cons, hk, decide_False]
      exact ih hrest

theorem applyOps_spec (ops : List RegistryOp) :
    ∀ (s : AppState) (m : WorkerMap), s.workers = some m → WellKeyed m →
      ∃ s2 m2, s.applyOps ops = some s2 ∧ s2.workers = some m2 ∧ WellKeyed m2 ∧
        ∀ id, s2.GetWorker id = lastAdded id (s.GetWorker id) ops := by
  induction ops with
  | nil =>
    intro s m hm hwk
    exact ⟨s, m, rfl, hm, hwk, fun _ => rfl⟩
  | cons op ops ih =>
    intro s m hm hwk
    cases op with
    | add w =>
      obtain ⟨s2, m2, h1, h2, h3, h4⟩ :=
        ih { s with workers := some (mapSet m w.ID w) } (mapSet m w.ID w) rfl
          (WellKeyed_mapSet m w hwk)
      refine ⟨s2, m2, ?_, h2, h3, ?_⟩
      · simp only [AppState.applyOps, AppState.applyOp, AppState.AddWorker, hm]
        exact h1
      · intro id
        rw [h4 id]
        simp only [lastAdded, AppState.GetWorker, hm]
        by_cases hid : w.ID = id
        · subst hid
          rw [mapGet_mapSet_same, if_pos rfl]
        · rw [mapGet_mapSet_other m id w.ID w hid, if_neg hid]
    | remove i =>
      obtain ⟨s2, m2, h1, h2, h3, h4⟩ :=
        ih { s with workers := some (mapDelete m i) } (mapDelete m i) rfl
          (WellKeyed_mapDelete m i hwk)
      refine ⟨s2, m2, ?_, h2, h3, ?_⟩
      · simp only [AppState.applyOps, AppState.applyOp, AppState.RemoveWorker, hm]
        exact h1
      · intro id
        rw [h4 id]
        simp only [lastAdded, AppState.GetWorker, hm]
        by_cases hid : i = id
        · subst hid
          rw [mapGet_mapDelete_same, if_pos rfl]
        · rw [mapGet_mapDelete_other m id i hid, if_neg hid]

/-- C13. After every sequence of `AddWorker` and `RemoveWorker` calls on a
freshly constructed store, `GetWorker(id)` is the record most recently
added under `id` if it was not removed since and absent otherwise,
`ListWorkers` holds at most one record for each ID, and an `AddWorker` or
`RemoveWorker` for one ID leaves `GetWorker` of every other ID unchanged. -/
theorem registry_one_record_per_ID (cfg : Config) (ops : List RegistryOp) :
    ∃ s, (New cfg).applyOps ops = some s ∧
      (∀ id, s.GetWorker id = lastAdded id none ops) ∧
      (∀ id, (s.ListWorkers.filter (fun w => decide (w.ID = id))).length ≤ 1) ∧
      (∀ (w : Worker) (id : String), id ≠ w.ID →
        ∃ s2, s.AddWorker w = some s2 ∧ s2.GetWorker w.ID = some w ∧
          s2.GetWorker id = s.GetWorker id) ∧
      (∀ id id2 : String, id ≠ id2 →
        (s.RemoveWorker id2).GetWorker id2 = none ∧
        (s.RemoveWorker id2).GetWorker id = s.GetWorker id) := by
  obtain ⟨s, m, h1, h2, h3, h4⟩ := applyOps_spec ops (New cfg) [] rfl
    ⟨List.nodup_nil, fun _ h => absurd h (List.not_mem_nil _)⟩
  refine ⟨s, h1, ?_, ?_, ?_, ?_⟩
  · intro id
    rw [h4 id]
    rfl
  · intro id
    simp only [AppState.ListWorkers, h2]
    exact WellKeyed_filter_length m id h3
  · intro w id hne
    refine ⟨{ s with workers := some (mapSet m w.ID w) }, ?_, ?_, ?_⟩
    · simp [AppState.AddWorker, h2]
    · simp [AppState.GetWorker, mapGet_mapSet_same]
    · simp only [AppState.GetWorker, h2]
      exact mapGet_mapSet_other m id w.ID w (Ne.symm hne)
  · intro id id2 hne
    simp only [AppState.RemoveWorker, AppState.GetWorker, h2]
    exact ⟨mapGet_mapDelete_same m id2, mapGet_mapDelete_other m id id2 (Ne.symm hne)⟩

end state

/-! ## Theorems: sampling loop (package `resources`) -/

namespace resources

open state

theorem LatestResource_collect (s : AppState) (snap : ResourceSnapshot) :
    (collect s snap).LatestResource = some snap := by
  unfold collect AppState.AddResourceSnapshot AppState.LatestResource
  simp only
  have hlen : (s.resources ++ [snap]).length = s.resources.length + 1 := by simp
  by_cases h : (s.resources ++ [snap]).length > 1440
  · rw [if_pos h]
    have hd : (List.drop ((s.resources ++ [snap]).length - 1440) (s.resources ++ [snap])).length
        ≠ 0 := by
      rw [List.length_drop]
      omega
    rw [if_neg hd, List.getLast?_drop, if_neg (by omega)]
    simp
  · rw [if_neg h, if_neg (by omega)]
    simp

theorem everyCollectChecked_runTicks (ticks : List ResourceSnapshot) :
    ∀ s : AppState, everyCollectChecked (runTicks s ticks).2 = true := by
  induction ticks with
  | nil => intro s; rfl
  | cons t rest ih =>
    intro s
    simp only [runTicks, everyCollectChecked]
    exact ih _

theorem runTicks_state (ticks : List ResourceSnapshot) :
    ∀ s : AppState, (runTicks s ticks).1 = ticks.foldl collect s := by
  induction ticks with
  | nil => intro s; rfl
  | cons t rest ih =>
    intro s
    simp only [runTicks, List.foldl_cons]
    exact ih _

theorem runTicks_split (pre : List ResourceSnapshot) (t : ResourceSnapshot)
    (post : List ResourceSnapshot) :
    ∀ s : AppState, ∃ front back,
      (runTicks s (pre ++ t :: post)).2 = front ++ .collect t ::
        .checkAlerts (checkAlerts (collect (pre.foldl collect s) t)) :: back ∧
      front.length = 2 * pre.length := by
  induction pre with
  | nil =>
    intro s
    exact ⟨[], (runTicks (collect s t) post).2, rfl, rfl⟩
  | cons p pre ih =>
    intro s
    obtain ⟨front, back, h1, h2⟩ := ih (collect s p)
    refine ⟨.collect p :: .checkAlerts (checkAlerts (collect s p)) :: front, back, ?_, ?_⟩
    · show Action.collect p :: Action.checkAlerts (checkAlerts (collect s p)) ::
        (runTicks (collect s p) (pre ++ t :: post)).2 = _
      rw [h1]
      rfl
    · simp only [List.length_cons, h2]
      omega

/-- C14 (as stated) fails on the sample taken on start: when the context is
cancelled before the first tick, `Run` performs one `collect` and no
`checkAlerts`. -/
theorem Run_first_sample_unchecked :
    ¬ (∀ (s : AppState) (first : ResourceSnapshot) (ticks : List ResourceSnapshot),
        everyCollectChecked (Run s first ticks).2 = true) := by
  intro hall
  have h := hall (New examples.config) (examples.snapshot 1000 950) []
  revert h
  decide

/-- C14 (amended). In every run of the resource monitor, every sample taken
on a tick is directly followed by an alert evaluation, which reads the
store whose latest snapshot is that sample; the immediate sample taken on
start is not: the action after it is the first tick's sample, or `Run`
returns. -/
theorem Run_alerts_after_tick_samples (s : AppState) (first : ResourceSnapshot)
    (ticks : List ResourceSnapshot) :
    (Run s first ticks).2 = .collect first :: (runTicks (collect s first) ticks).2 ∧
    everyCollectChecked (runTicks (collect s first) ticks).2 = true ∧
    everyCollectChecked (Run s first ticks).2 = false ∧
    (∀ pre t post, ticks = pre ++ t :: post →
      ∃ front back,
        (Run s first ticks).2 = .collect first :: (front ++ .collect t ::
          .checkAlerts (checkAlerts (collect (pre.foldl collect (collect s first)) t)) :: back) ∧
        front.length = 2 * pre.length ∧
        (collect (pre.foldl collect (collect s first)) t).LatestResource = some t) ∧
    (Run s first ticks).1 = ticks.foldl collect (collect s first) := by
  refine ⟨rfl, everyCollectChecked_runTicks ticks _, ?_, ?_, runTicks_state ticks _⟩
  · cases ticks with
    | nil => rfl
    | cons t rest => rfl
  · intro pre t post hsplit
    subst hsplit
    obtain ⟨front, back, h1, h2⟩ := runTicks_split pre t post (collect s first)
    refine ⟨front, back, ?_, h2, LatestResource_collect _ t⟩
    show Action.collect first :: (runTicks (collect s first) (pre ++ t :: post)).2 = _
    rw [h1]

end resources

/-! ## Theorems: disk alert and entry point -/

namespace resources

open state

theorem lowDiskWarned_checkAlerts (s : AppState) (snap : ResourceSnapshot)
    (h : s.LatestResource = some snap) :
    lowDiskWarned (checkAlerts s) =
      (F64.lt (F64.ofInt 0) snap.DiskTotalGB &&
        F64.lt (F64.sub snap.DiskTotalGB snap.DiskUsedGB)
          (F64.ofInt s.config.Alerts.DiskFreeGBMin)) := by
  unfold checkAlerts
  simp only [h, AppState.Config]
  unfold ramAlert diskAlert gpuAlert lowDiskWarned
  by_cases h1 : snap.RAMTotalMB > 0 <;>
  by_cases h2 : F64.lt (availPercent snap) (F64.ofInt s.config.Alerts.RAMAvailablePercentMin) = true <;>
  by_cases h3 : F64.lt (F64.ofInt 0) snap.DiskTotalGB = true <;>
  by_cases h4 : F64.lt (F64.sub snap.DiskTotalGB snap.DiskUsedGB)
      (F64.ofInt s.config.Alerts.DiskFreeGBMin) = true <;>
  by_cases h5 : F64.lt (F64.ofInt s.config.Alerts.GPUUtilizationPercent) snap.GPUPercent = true <;>
  simp [h1, h2, h3, h4, h5]

set_option maxRecDepth 100000 in
/-- C15 (as stated) fails when the disk total is not above 0: with total 0
and used 0 (what `getDiskUsage` yields when `df` fails) and minimum 5 the
free space 0 is below 5, yet no low-disk warning is emitted. -/
theorem checkAlerts_lowDisk_no_total :
    ¬ (∀ (s : AppState) (snap : ResourceSnapshot), s.LatestResource = some snap →
        (lowDiskWarned (checkAlerts s) = true ↔
          F64.lt (F64.sub snap.DiskTotalGB snap.DiskUsedGB)
            (F64.ofInt s.config.Alerts.DiskFreeGBMin) = true)) := by
  intro hall
  have h := hall (examples.alertStore 10 (examples.snapshot 1000 500))
    (examples.snapshot 1000 500) rfl
  have hw : lowDiskWarned (checkAlerts (examples.alertStore 10 (examples.snapshot 1000 500)))
      = false := by rfl
  have hlt : F64.lt (F64.sub (examples.snapshot 1000 500).DiskTotalGB
      (examples.snapshot 1000 500).DiskUsedGB)
      (F64.ofInt (examples.alertStore 10 (examples.snapshot 1000 500)).config.Alerts.DiskFreeGBMin)
      = true := by rfl
  rw [hw] at h
  exact absurd (h.mpr hlt) (by decide)

/-- C15 (amended). For every latest snapshot and every configured
threshold, `checkAlerts` emits the low-disk warning exactly when the disk
total is above 0 and the free space, disk total minus disk used, is below
the configured minimum; the RAM and GPU readings, their thresholds and
whether their warnings fire have no part in it. -/
theorem checkAlerts_lowDisk (s : AppState) (snap : ResourceSnapshot)
    (hlatest : s.LatestResource = some snap) :
    (lowDiskWarned (checkAlerts s) = true ↔
      (F64.lt (F64.ofInt 0) snap.DiskTotalGB = true ∧
        F64.lt (F64.sub snap.DiskTotalGB snap.DiskUsedGB)
          (F64.ofInt s.config.Alerts.DiskFreeGBMin) = true)) ∧
    (∀ (s2 : AppState) (snap2 : ResourceSnapshot), s2.LatestResource = some snap2 →
      snap2.DiskTotalGB = snap.DiskTotalGB → snap2.DiskUsedGB = snap.DiskUsedGB →
      s2.config.Alerts.DiskFreeGBMin = s.config.Alerts.DiskFreeGBMin →
      lowDiskWarned (checkAlerts s2) = lowDiskWarned (checkAlerts s)) := by
  constructor
  · rw [lowDiskWarned_checkAlerts s snap hlatest]
    simp
  · intro s2 snap2 h2 ht hu hm
    rw [lowDiskWarned_checkAlerts s snap hlatest, lowDiskWarned_checkAlerts s2 snap2 h2,
      ht, hu, hm]

set_option maxRecDepth 100000 in
theorem checkAlerts_lowDisk_witness :
    lowDiskWarned (checkAlerts (examples.alertStore 10 examples.diskSnapshot)) = true :=
  (checkAlerts_lowDisk (examples.alertStore 10 examples.diskSnapshot) examples.diskSnapshot
    rfl).1.mpr ⟨by rfl, by rfl⟩

end resources

namespace cmd

open state mattermost

/-- C16 (as stated) fails: with a configuration that loads and the bridge
configured, the components `main` starts do not include the hijack monitor. -/
theorem main_without_hijack_monitor :
    ¬ (∀ (cfg : Config) (env : Environ) (noTUI : Bool),
        Component.hijackMonitor ∈ main (.ok cfg) env noTUI) := by
  intro hall
  have h := hall examples.config examples.environ false
  revert h
  decide

/-- C16 (amended). The components `main` constructs and starts with the
shared state and cancellation context are the resource monitor, the
message bridge (exactly when the connection URL and the credential are
both non-empty), the process supervisor (holding the bridge when there is
one) and the web server, then the dashboard unless disabled; the hijack
monitor is never among them. -/
theorem main_components (cfg : Except Err Config) (c : Config) (env : Environ) (noTUI : Bool) :
    Component.hijackMonitor ∉ main cfg env noTUI ∧
    Component.resourceMonitor ∈ main (.ok c) env noTUI ∧
    (Component.messageBridge ∈ main (.ok c) env noTUI ↔
      (env.MM_WS_URL ≠ "" ∧ env.MM_BOT_TOKEN ≠ "")) ∧
    (∃ mm, Component.processSupervisor mm ∈ main (.ok c) env noTUI ∧
      (mm.isSome ↔ Component.messageBridge ∈ main (.ok c) env noTUI)) ∧
    Component.webServer ∈ main (.ok c) env noTUI ∧
    (Component.dashboard ∈ main (.ok c) env noTUI ↔ noTUI = false) := by
  have hnb : (∃ b, NewBridge env.MM_WS_URL env.MM_API_URL env.MM_BOT_TOKEN = .ok b) ↔
      (env.MM_WS_URL ≠ "" ∧ env.MM_BOT_TOKEN ≠ "") := by
    unfold NewBridge
    by_cases h : env.MM_WS_URL = "" ∨ env.MM_BOT_TOKEN = ""
    · simp only [h, if_true]
      constructor
      · rintro ⟨b, hb⟩; cases hb
      · intro hc; rcases h with h | h
        · exact absurd h hc.1
        · exact absurd h hc.2
    · simp only [h, if_false]
      push_neg at h
      exact ⟨fun _ => h, fun _ => ⟨_, rfl⟩⟩
  refine ⟨?_, ?_, ?_, ?_, ?_, ?_⟩
  · unfold main
    cases cfg with
    | error e => simp
    | ok c0 =>
      cases NewBridge env.MM_WS_URL env.MM_API_URL env.MM_BOT_TOKEN <;>
      cases noTUI <;> simp
  · unfold main
    cases NewBridge env.MM_WS_URL env.MM_API_URL env.MM_BOT_TOKEN <;> simp
  · rw [← hnb]
    unfold main
    cases NewBridge env.MM_WS_URL env.MM_API_URL env.MM_BOT_TOKEN <;> cases noTUI <;> simp
  · unfold main
    cases NewBridge env.MM_WS_URL env.MM_API_URL env.MM_BOT_TOKEN with
    | error e => exact ⟨none, by simp, by cases noTUI <;> simp⟩
    | ok b => exact ⟨some b, by simp, by simp⟩
  · unfold main
    cases NewBridge env.MM_WS_URL env.MM_API_URL env.MM_BOT_TOKEN <;> simp
  · unfold main
    cases NewBridge env.MM_WS_URL env.MM_API_URL env.MM_BOT_TOKEN <;> cases noTUI <;> simp

end cmd

/-! ## Theorems: recovery with a nil map, and forwarded prompts -/

namespace state

/-- C17. A state file that decodes with a nil worker map (no `workers`
key, or `"workers": null`) is accepted by `Recover`, which then leaves the
store with a nil map: every following `AddWorker` panics. -/
theorem Recover_nil_workers (j : JSON) (cfg : Config) (fs : FS) (d : String) (pid : Int)
    (tl : TrafficLight)
    (hfile : fs (New cfg).statePath = .file d)
    (hdec : j.Unmarshal d = .ok ⟨none, pid, tl⟩) :
    ∃ s, (New cfg).Recover j fs = .ok s ∧ s.workers = none ∧
      ∀ w : Worker, s.AddWorker w = none := by
  refine ⟨{ New cfg with workers := none, managerPID := pid, trafficLight := tl }, ?_, rfl,
    fun w => rfl⟩
  simp [AppState.Recover, ReadFile, hfile, hdec]

theorem Recover_nil_workers_witness :
    ∃ s, (New examples.config).Recover examples.jsonNoWorkers examples.fsNoWorkers = .ok s ∧
      s.workers = none ∧ ∀ w : Worker, s.AddWorker w = none :=
  Recover_nil_workers examples.jsonNoWorkers examples.config examples.fsNoWorkers
    "manager_pid: 7" 7 "" rfl rfl

end state

namespace manager

open state mattermost

theorem handleEvent_buf (d : Decoder) (b : Bridge) (raw : String) :
    (b.handleEvent d raw).1.msgCh.buf = b.msgCh.buf ∨
    ∃ post : Post, (b.handleEvent d raw).1.msgCh.buf = b.msgCh.buf ++ [messageOf post] := by
  unfold Bridge.handleEvent
  cases d.UnmarshalEvent raw with
  | error e => exact Or.inl rfl
  | ok ev =>
    simp only
    by_cases hp : ev.Event ≠ "posted"
    · rw [if_pos hp]; exact Or.inl rfl
    · rw [if_neg hp]
      cases lookup ev.Data "post" with
      | none => exact Or.inl rfl
      | some v =>
        cases v with
        | other => exact Or.inl rfl
        | str p =>
          simp only
          cases d.UnmarshalPost p with
          | error e => exact Or.inl rfl
          | ok post =>
            simp only [Chan.trySend]
            by_cases hroom : b.msgCh.buf.length < b.msgCh.cap
            · right
              refine ⟨post, ?_⟩
              simp [hroom, messageOf]
            · left
              simp [hroom]

theorem handleEvent_username (d : Decoder) (b : Bridge) (raw : String)
    (h : ∀ msg ∈ b.msgCh.buf, msg.Username = "") :
    ∀ msg ∈ (b.handleEvent d raw).1.msgCh.buf, msg.Username = "" := by
  rcases handleEvent_buf d b raw with he | ⟨post, he⟩
  · rw [he]; exact h
  · rw [he]
    intro msg hm
    rcases List.mem_append.mp hm with hm | hm
    · exact h msg hm
    · simp only [List.mem_singleton] at hm
      subst hm
      rfl

theorem formatPrompt_empty_username (msg : Message) (h : msg.Username = "") :
    formatPrompt msg = "[From MM thread " ++ msg.ThreadID ++ ", user ]: " ++ msg.Text ++ "\n" := by
  unfold formatPrompt
  rw [h]
  simp only [String.append_assoc]
  rfl

theorem pump_username (d : Decoder) (ops : List QueueOp) :
    ∀ b : Bridge, (∀ msg ∈ b.msgCh.buf, msg.Username = "") →
      (∀ msg ∈ (pump d b ops).1.msgCh.buf, msg.Username = "") ∧
      ∀ p ∈ (pump d b ops).2, ∃ threadID text : String,
        p = "[From MM thread " ++ threadID ++ ", user ]: " ++ text ++ "\n" := by
  induction ops with
  | nil =>
    intro b h
    exact ⟨h, fun p hp => absurd hp (List.not_mem_nil _)⟩
  | cons op ops ih =>
    intro b h
    cases op with
    | frame raw =>
      simp only [pump]
      exact ih _ (handleEvent_username d b raw h)
    | forward =>
      simp only [pump, forwardOne]
      cases hb : b.msgCh.buf with
      | nil =>
        simp only
        exact ih b h
      | cons msg rest =>
        simp only
        have hrest : ∀ m ∈ rest, m.Username = "" := by
          intro m hm
          exact h m (by rw [hb]; exact List.mem_cons_of_mem _ hm)
        obtain ⟨i1, i2⟩ := ih { b with msgCh := { b.msgCh with buf := rest } } hrest
        refine ⟨i1, ?_⟩
        intro p hp
        rcases List.mem_cons.mp hp with hp | hp
        · exact ⟨msg.ThreadID, msg.Text, by
            rw [hp]
            exact formatPrompt_empty_username msg (h msg (by rw [hb]; exact List.mem_cons_self _ _))⟩
        · exact i2 p hp

/-- C18. Every message `handleEvent` places on the inbound queue has an
empty `Username`; hence on a bridge built by `NewBridge`, whatever frames
arrive and whenever the forwarding task runs, every queued message has an
empty `Username` and every prompt line written to the manager's input is
`"[From MM thread " + threadID + ", user ]: " + text + "\n"`. -/
theorem prompts_without_username (d : Decoder) (wsURL apiURL botToken : String) (b : Bridge)
    (ops : List QueueOp) (hb : NewBridge wsURL apiURL botToken = .ok b) :
    (∀ (b2 : Bridge) (raw : String) (msg : Message),
      msg ∈ (b2.handleEvent d raw).1.msgCh.buf → msg ∈ b2.msgCh.buf ∨ msg.Username = "") ∧
    (∀ msg ∈ (pump d b ops).1.msgCh.buf, msg.Username = "") ∧
    (∀ p ∈ (pump d b ops).2, ∃ threadID text : String,
      p = "[From MM thread " ++ threadID ++ ", user ]: " ++ text ++ "\n") := by
  have hempty : b.msgCh.buf = [] := by
    unfold NewBridge at hb
    split at hb
    · cases hb
    · cases hb; rfl
  have hinv : ∀ msg ∈ b.msgCh.buf, msg.Username = "" := by
    rw [hempty]
    intro msg hm
    exact absurd hm (List.not_mem_nil _)
  obtain ⟨h1, h2⟩ := pump_username d ops b hinv
  refine ⟨?_, h1, h2⟩
  intro b2 raw msg hm
  rcases handleEvent_buf d b2 raw with he | ⟨post, he⟩
  · rw [he] at hm; exact Or.inl hm
  · rw [he] at hm
    rcases List.mem_append.mp hm with hm | hm
    · exact Or.inl hm
    · simp only [List.mem_singleton] at hm
      subst hm
      exact Or.inr rfl

theorem prompts_without_username_witness :
    (pump examples.decoder examples.bridge [.frame "frame", .forward]).2
      = ["[From MM thread p1, user ]: hello\n"] ∧
    ∀ p ∈ (pump examples.decoder examples.bridge [.frame "frame", .forward]).2,
      ∃ threadID text : String,
        p = "[From MM thread " ++ threadID ++ ", user ]: " ++ text ++ "\n" :=
  ⟨by decide, (prompts_without_username examples.decoder "wss://mm.example"
    "https://mm.example" "token" examples.bridge [.frame "frame", .forward] rfl).2.2⟩

end manager
